import Mathlib

/-!
# Modular double circular linked list (`LIBMDCLWithTesting.c`)

A shallow embedding of the list manager of `LIBMDCLWithTesting.c` and the
properties of its creation, insertion and deletion operations.

## Conventions of the embedding

* A C `int` is an `Int`.  No operation of the library gets near the bounds of
  `int` unless the list has about `2^31` nodes, and signed overflow is undefined
  behaviour in C, so no wrap-around is modelled.  A loop counter, which only
  takes the values `0` to `NodeCount - 1`, is a `Nat`.
* A `struct Node*` is a `NodePtr`: `NULL`, or the address `&block[index]` of a
  slot of the heap block that starts at address `block`.  Two such pointers are
  equal exactly when block and index agree; a pointer whose block is not the
  manager's current `NodeArray` refers to memory the manager no longer owns.
* The heap block behind `NodeManager->NodeArray` is owned by the manager alone
  and is kept next to it, as the field `store`; its length is the number of
  slots the allocator gave, which the code tracks on its own in `NodeCount`.
* `calloc` and `realloc` are the allocator's choice.  Each call site takes the
  outcome as an argument: `none` when the allocator returns `NULL`, otherwise
  the address of the block and, for `realloc`, the indeterminate contents of the
  slots that were not there before.  The address may be the old one or another
  one; the number of slots asked for is the count as a natural number.
* Reading or writing `NodeArray[i]` outside the block is undefined behaviour in
  C.  Here such a read gives `zeroNode` and such a write is dropped; the
  statements below are about managers whose block has `NodeCount` slots, and
  after a successful `realloc` every access of the operations lies inside the
  block just obtained.
* The `NodeManager == NULL` guard that opens every operation is the case where
  there is no manager at all; the operations here take the manager itself.
* Diagnostics written to `stderr` are not part of the state.
-/

namespace MDCL

/-! ## Data model -/

/-- A `struct Node*`. -/
inductive NodePtr where
  | null : NodePtr
  | elem (block : Nat) (index : Int) : NodePtr
deriving DecidableEq

/-- The `struct Node`: `data` is the `void*` payload reference (`none` is
`NULL`, `some a` the address `a`). -/
structure Node where
  data : Option Nat
  position : Int
  next : NodePtr
  prev : NodePtr
deriving DecidableEq

/-- The `struct NodeManager`, together with the heap block `store` that
`NodeArray` points to. -/
structure NodeManager where
  ListID : List Char
  NodeCount : Int
  head : NodePtr
  tail : NodePtr
  NodeArray : Nat
  store : List Node
deriving DecidableEq

/-- A node of zeroed memory, as `calloc` hands it out. -/
def zeroNode : Node := ⟨none, 0, NodePtr.null, NodePtr.null⟩

/-- The successful outcome of a `realloc`: where the block now lives and what
the slots beyond the old size contain. -/
structure Realloc where
  addr : Nat
  fresh : Node
deriving DecidableEq

/-- The contents of a block after a successful `realloc` to `n` slots: the old
contents up to the smaller of the two sizes, then indeterminate slots. -/
def resize (cells : List Node) (n : Nat) (fresh : Node) : List Node :=
  cells.take n ++ List.replicate (n - cells.length) fresh

namespace NodeManager

/-- The value of `NodeArray[i]`. -/
def cell (m : NodeManager) (i : Nat) : Node := m.store.getD i zeroNode

/-- The assignment `NodeArray[i] = x`. -/
def setCell (i : Nat) (x : Node) (m : NodeManager) : NodeManager :=
  { m with store := m.store.set i x }

/-- The assignment `NodeArray[i].data = d`. -/
def setData (i : Nat) (d : Option Nat) (m : NodeManager) : NodeManager :=
  m.setCell i { m.cell i with data := d }

/-- The assignment `NodeArray[i].position = p`. -/
def setPosition (i : Nat) (p : Int) (m : NodeManager) : NodeManager :=
  m.setCell i { m.cell i with position := p }

/-- The assignment `NodeArray[i].next = p`. -/
def setNext (i : Nat) (p : NodePtr) (m : NodeManager) : NodeManager :=
  m.setCell i { m.cell i with next := p }

/-- The assignment `NodeArray[i].prev = p`. -/
def setPrev (i : Nat) (p : NodePtr) (m : NodeManager) : NodeManager :=
  m.setCell i { m.cell i with prev := p }

/-- The rewriting of slot `i` by `f`. -/
def modify (i : Nat) (f : Node → Node) (m : NodeManager) : NodeManager :=
  m.setCell i (f (m.cell i))

/-- The part of a manager that no assignment to a slot touches. -/
def frame (m : NodeManager) : List Char × Int × NodePtr × NodePtr × Nat × Nat :=
  (m.ListID, m.NodeCount, m.head, m.tail, m.NodeArray, m.store.length)

end NodeManager

/-! ## Loops -/

/-- The loop `for (int i = lo; i < lo + k; i++) body`. -/
def forUp {σ : Type} (body : Nat → σ → σ) : Nat → Nat → σ → σ
  | _, 0, s => s
  | lo, k + 1, s => forUp body (lo + 1) k (body lo s)

/-- The loop `for (int i = lo + k - 1; i >= lo; i--) body`. -/
def forDown {σ : Type} (body : Nat → σ → σ) (lo : Nat) : Nat → σ → σ
  | 0, s => s
  | k + 1, s => forDown body lo k (body (lo + k) s)

/-! ## CreateList -/

/-- The body of the initialisation loop of `CreateList` (lines 120-139). -/
def CreateList.init (NodeCount : Int) (NodeArray : Nat) (i : Nat) (m : NodeManager) :
    NodeManager :=
  let m :=
    if i = 0 then
      m |>.setPrev i (NodePtr.elem NodeArray (NodeCount - 1))
        |>.setNext i (NodePtr.elem NodeArray (i + 1))
    else if (i : Int) = NodeCount - 1 then
      m |>.setPrev i (NodePtr.elem NodeArray (i - 1))
        |>.setNext i (NodePtr.elem NodeArray 0)
    else
      m |>.setPrev i (NodePtr.elem NodeArray (i - 1))
        |>.setNext i (NodePtr.elem NodeArray (i + 1))
  m.setPosition i i

/-- The function `CreateList(NodeCount, ListID)`.  `ListID` is the content of the
C string; `managerAlloc` tells whether `calloc` gave a manager and `arrayAlloc`
the address of the node array it gave, if any. -/
def CreateList (NodeCount : Int) (ListID : List Char) (managerAlloc : Bool)
    (arrayAlloc : Option Nat) : Option NodeManager :=
  if NodeCount ≤ 0 then none
  else if managerAlloc = false then none
  else
    match arrayAlloc with
    | none => none
    | some NodeArray =>
      let manager : NodeManager :=
        { ListID := ListID.take 29
          NodeCount := NodeCount
          head := NodePtr.elem NodeArray 0
          tail := NodePtr.elem NodeArray (NodeCount - 1)
          NodeArray := NodeArray
          store := List.replicate NodeCount.toNat zeroNode }
      some (forUp (CreateList.init NodeCount NodeArray) 0 NodeCount.toNat manager)

/-! ## InsertNodeAtEnd -/

/-- The body of the relinking loop of `InsertNodeAtEnd` (lines 178-201). -/
def InsertNodeAtEnd.relink (NodeCount : Int) (NodeArray : Nat) (i : Nat) (m : NodeManager) :
    NodeManager :=
  if i = 0 then
    m |>.setPosition i 0
      |>.setPrev i (NodePtr.elem NodeArray (NodeCount - 1))
      |>.setNext i (NodePtr.elem NodeArray (i + 1))
  else if (i : Int) = NodeCount - 1 then
    m |>.setNext i (NodePtr.elem NodeArray 0)
      |>.setPrev i (NodePtr.elem NodeArray (i - 1))
      |>.setPosition i i
  else
    m |>.setNext i (NodePtr.elem NodeArray (i + 1))
      |>.setPrev i (NodePtr.elem NodeArray (i - 1))
      |>.setPosition i i

/-- The function `InsertNodeAtEnd(NodeManager)`: the returned pointer and the
manager afterwards.  `r` is the outcome of the `realloc` of line 160. -/
def InsertNodeAtEnd (m : NodeManager) (r : Option Realloc) : NodePtr × NodeManager :=
  match r with
  | none => (NodePtr.null, m)
  | some TempNodeArray =>
    let m : NodeManager :=
      { m with
        NodeCount := m.NodeCount + 1
        NodeArray := TempNodeArray.addr
        store := resize m.store (m.NodeCount + 1).toNat TempNodeArray.fresh }
    let NodeCount := m.NodeCount
    let NodeArray := m.NodeArray
    let m : NodeManager :=
      { m with
        head := NodePtr.elem NodeArray 0
        tail := NodePtr.elem NodeArray (NodeCount - 1) }
    let m := forDown (InsertNodeAtEnd.relink NodeCount NodeArray) 0 NodeCount.toNat m
    (m.tail, m)

/-! ## InsertNodeAtBeginning -/

/-- The body of the shifting loop of `InsertNodeAtBeginning` (lines 244-250). -/
def InsertNodeAtBeginning.shift (i : Nat) (m : NodeManager) : NodeManager :=
  let m := m.setPosition (i - 1) ((m.cell (i - 1)).position + 1)
  m.setCell i (m.cell (i - 1))

/-- The body of the relinking loop of `InsertNodeAtBeginning` (lines 253-276). -/
def InsertNodeAtBeginning.relink (NodeCount : Int) (NodeArray : Nat) (i : Nat)
    (m : NodeManager) : NodeManager :=
  if i = 0 then
    m |>.setPosition i 0
      |>.setPrev i (NodePtr.elem NodeArray (NodeCount - 1))
      |>.setNext i (NodePtr.elem NodeArray (i + 1))
  else if (i : Int) = NodeCount - 1 then
    m |>.setNext i (NodePtr.elem NodeArray 0)
      |>.setPrev i (NodePtr.elem NodeArray (i - 1))
      |>.setPosition i i
  else
    m |>.setNext i (NodePtr.elem NodeArray (i + 1))
      |>.setPrev i (NodePtr.elem NodeArray (i - 1))
      |>.setPosition i i

/-- The function `InsertNodeAtBeginning(NodeManager)`: the returned pointer and
the manager afterwards.  `r` is the outcome of the `realloc` of line 223. -/
def InsertNodeAtBeginning (m : NodeManager) (r : Option Realloc) : NodePtr × NodeManager :=
  match r with
  | none => (NodePtr.null, m)
  | some TempNodeArray =>
    let m : NodeManager :=
      { m with
        NodeCount := m.NodeCount + 1
        NodeArray := TempNodeArray.addr
        store := resize m.store (m.NodeCount + 1).toNat TempNodeArray.fresh }
    let NodeCount := m.NodeCount
    let NodeArray := m.NodeArray
    let m : NodeManager :=
      { m with
        head := NodePtr.elem NodeArray 0
        tail := NodePtr.elem NodeArray (NodeCount - 1) }
    let m := forDown InsertNodeAtBeginning.shift 1 (NodeCount.toNat - 1) m
    let m := forDown (InsertNodeAtBeginning.relink NodeCount NodeArray) 0 NodeCount.toNat m
    (m.head, m)

/-! ## InsertNodeAtPosition -/

/-- The body of the shifting loop of `InsertNodeAtPosition` (lines 338-342). -/
def InsertNodeAtPosition.shift (i : Nat) (m : NodeManager) : NodeManager :=
  m |>.setCell i (m.cell (i - 1))
    |>.setPosition i i

/-- The body of the relinking loop of `InsertNodeAtPosition` (lines 345-368). -/
def InsertNodeAtPosition.relink (NodeCount : Int) (NodeArray : Nat) (i : Nat)
    (m : NodeManager) : NodeManager :=
  if i = 0 then
    { m with
      head := NodePtr.elem NodeArray i
      tail := NodePtr.elem NodeArray (NodeCount - 1) }
      |>.setPrev i (NodePtr.elem NodeArray (NodeCount - 1))
      |>.setNext i (NodePtr.elem NodeArray (i + 1))
  else if (i : Int) = NodeCount - 1 then
    m |>.setNext i (NodePtr.elem NodeArray 0)
      |>.setPrev i (NodePtr.elem NodeArray (i - 1))
      |>.setPosition i i
  else
    m |>.setNext i (NodePtr.elem NodeArray (i + 1))
      |>.setPrev i (NodePtr.elem NodeArray (i - 1))
      |>.setPosition i i

/-- The function `InsertNodeAtPosition(NodeManager, position)`: the returned
pointer and the manager afterwards.  `r` is the outcome of the `realloc` of
line 305 and `r2` the outcome of the one inside the call of `InsertNodeAtEnd`
or `InsertNodeAtBeginning` of lines 323 and 328, whose own result is dropped
for the `false` (a null pointer) of lines 324 and 329. -/
def InsertNodeAtPosition (m : NodeManager) (position : Int) (r r2 : Option Realloc) :
    NodePtr × NodeManager :=
  if position < 0 ∨ position > m.NodeCount then (NodePtr.null, m)
  else
    match r with
    | none => (NodePtr.null, m)
    | some TempNodeArray =>
      let m : NodeManager :=
        { m with
          NodeCount := m.NodeCount + 1
          NodeArray := TempNodeArray.addr
          store := resize m.store (m.NodeCount + 1).toNat TempNodeArray.fresh }
      let NodeCount := m.NodeCount
      let NodeArray := m.NodeArray
      if position = NodeCount - 1 then
        (NodePtr.null, (InsertNodeAtEnd m r2).2)
      else if position = 0 then
        (NodePtr.null, (InsertNodeAtBeginning m r2).2)
      else
        let m : NodeManager :=
          { m with
            head := NodePtr.elem NodeArray 0
            tail := NodePtr.elem NodeArray (NodeCount - 1) }
        let m := forDown InsertNodeAtPosition.shift (position.toNat + 1)
          (NodeCount.toNat - 1 - position.toNat) m
        let m := forDown (InsertNodeAtPosition.relink NodeCount NodeArray) 0 NodeCount.toNat m
        (NodePtr.elem m.NodeArray position, m)

/-! ## DeleteNodeAtEnd and DeleteNodeAtBeginning -/

/-- The body of the relinking loop of `DeleteNodeAtEnd` (lines 421-442). -/
def DeleteNodeAtEnd.relink (NodeCount : Int) (NodeArray : Nat) (i : Nat) (m : NodeManager) :
    NodeManager :=
  if i = 0 then
    m |>.setPrev i (NodePtr.elem NodeArray (NodeCount - 1))
      |>.setNext i (NodePtr.elem NodeArray (i + 1))
  else if (i : Int) = NodeCount - 1 then
    { (m |>.setNext i (NodePtr.elem NodeArray 0)
         |>.setPrev i (NodePtr.elem NodeArray (i - 1))
         |>.setPosition i i) with
      tail := NodePtr.elem NodeArray i }
  else
    m |>.setNext i (NodePtr.elem NodeArray (i + 1))
      |>.setPrev i (NodePtr.elem NodeArray (i - 1))
      |>.setPosition i i

/-- The function `DeleteNodeAtEnd(NodeManager)`: the returned flag and the
manager afterwards.  `r` is the outcome of the `realloc` of line 409. -/
def DeleteNodeAtEnd (m : NodeManager) (r : Option Realloc) : Bool × NodeManager :=
  let m : NodeManager := { m with NodeCount := m.NodeCount - 1 }
  let NodeCount := m.NodeCount
  match r with
  | none => (false, m)
  | some TempNodeArray =>
    let m : NodeManager :=
      { m with
        NodeArray := TempNodeArray.addr
        store := resize m.store NodeCount.toNat TempNodeArray.fresh }
    let NodeArray := m.NodeArray
    let m := forDown (DeleteNodeAtEnd.relink NodeCount NodeArray) 0 NodeCount.toNat m
    (true, m)

/-- The body of the shifting loop of `DeleteNodeAtBeginning` (lines 465-469). -/
def DeleteNodeAtBeginning.shift (i : Nat) (m : NodeManager) : NodeManager :=
  m |>.setCell i (m.cell (i + 1))
    |>.setPosition i i

/-- The body of the relinking loop of `DeleteNodeAtBeginning` (lines 485-510). -/
def DeleteNodeAtBeginning.relink (NodeCount : Int) (NodeArray : Nat) (i : Nat)
    (m : NodeManager) : NodeManager :=
  if i = 0 then
    { (m |>.setPosition i 0
         |>.setPrev i (NodePtr.elem NodeArray (NodeCount - 1))
         |>.setNext i (NodePtr.elem NodeArray (i + 1))) with
      head := NodePtr.elem NodeArray i }
  else if (i : Int) = NodeCount - 1 then
    { (m |>.setNext i (NodePtr.elem NodeArray 0)
         |>.setPrev i (NodePtr.elem NodeArray (i - 1))
         |>.setPosition i i) with
      tail := NodePtr.elem NodeArray i }
  else
    m |>.setNext i (NodePtr.elem NodeArray (i + 1))
      |>.setPrev i (NodePtr.elem NodeArray (i - 1))
      |>.setPosition i i

/-- The function `DeleteNodeAtBeginning(NodeManager)`: the returned flag and the
manager afterwards.  `r` is the outcome of the `realloc` of line 473. -/
def DeleteNodeAtBeginning (m : NodeManager) (r : Option Realloc) : Bool × NodeManager :=
  let m : NodeManager := { m with NodeCount := m.NodeCount - 1 }
  let NodeCount := m.NodeCount
  let m := forUp DeleteNodeAtBeginning.shift 0 NodeCount.toNat m
  match r with
  | none => (false, m)
  | some TempNodeArray =>
    let m : NodeManager :=
      { m with
        NodeArray := TempNodeArray.addr
        store := resize m.store NodeCount.toNat TempNodeArray.fresh }
    let NodeArray := m.NodeArray
    let m := forDown (DeleteNodeAtBeginning.relink NodeCount NodeArray) 0 NodeCount.toNat m
    (true, m)

/-! ## DeleteNodeAtPosition -/

/-- The body of the shifting loop of `DeleteNodeAtPosition` (lines 550-554). -/
def DeleteNodeAtPosition.shift (i : Nat) (m : NodeManager) : NodeManager :=
  m |>.setCell i (m.cell (i + 1))
    |>.setPosition i i

/-- The body of the relinking loop of `DeleteNodeAtPosition` (lines 571-596). -/
def DeleteNodeAtPosition.relink (NodeCount : Int) (NodeArray : Nat) (i : Nat)
    (m : NodeManager) : NodeManager :=
  if i = 0 then
    { (m |>.setPosition i 0
         |>.setPrev i (NodePtr.elem NodeArray (NodeCount - 1))
         |>.setNext i (NodePtr.elem NodeArray (i + 1))) with
      head := NodePtr.elem NodeArray i }
  else if (i : Int) = NodeCount - 1 then
    { (m |>.setNext i (NodePtr.elem NodeArray 0)
         |>.setPrev i (NodePtr.elem NodeArray (i - 1))
         |>.setPosition i i) with
      tail := NodePtr.elem NodeArray i }
  else
    m |>.setNext i (NodePtr.elem NodeArray (i + 1))
      |>.setPrev i (NodePtr.elem NodeArray (i - 1))
      |>.setPosition i i

/-- The function `DeleteNodeAtPosition(NodeManager, position)`: the returned
flag and the manager afterwards.  `r` is the outcome of the `realloc` of
line 557 and `r2` the outcome of the one inside the call of `DeleteNodeAtEnd`
or `DeleteNodeAtBeginning` of lines 540 and 545, whose own result is dropped
for the `false` of lines 541 and 546. -/
def DeleteNodeAtPosition (m : NodeManager) (position : Int) (r r2 : Option Realloc) :
    Bool × NodeManager :=
  let m : NodeManager := { m with NodeCount := m.NodeCount - 1 }
  let NodeCount := m.NodeCount
  if position < 0 ∨ position > NodeCount then (false, m)
  else if position = NodeCount - 1 then
    (false, (DeleteNodeAtEnd m r2).2)
  else if position = 0 then
    (false, (DeleteNodeAtBeginning m r2).2)
  else
    let m := forUp DeleteNodeAtPosition.shift position.toNat
      (NodeCount.toNat - position.toNat) m
    match r with
    | none => (false, m)
    | some TempNodeArray =>
      let m : NodeManager :=
        { m with
          NodeArray := TempNodeArray.addr
          store := resize m.store NodeCount.toNat TempNodeArray.fresh }
      let NodeArray := m.NodeArray
      let m := forDown (DeleteNodeAtPosition.relink NodeCount NodeArray) 0 NodeCount.toNat m
      (true, m)

/-! ## SetNodeData and EmptyNodeData -/

/-- The function `SetNodeData(NodeManager, position, data)`: the returned flag
and the manager afterwards. -/
def SetNodeData (m : NodeManager) (position : Int) (data : Option Nat) : Bool × NodeManager :=
  if position > m.NodeCount - 1 ∨ position < 0 then (false, m)
  else
    let m := m.setData position.toNat data
    if data = none then (false, m)
    else (true, m)

/-- The function `EmptyNodeData(NodeManager, position)`: the returned flag and
the manager afterwards. -/
def EmptyNodeData (m : NodeManager) (position : Int) : Bool × NodeManager :=
  if position > m.NodeCount - 1 ∨ position < 0 then (false, m)
  else (true, m.setData position.toNat none)

/-! ## The structural invariants -/

/-- The structural invariants of a manager: at least one node, a block of
`NodeCount` slots, `head` and `tail` at the first and the last slot, and every
slot carrying its own index and the addresses of its circular neighbours. -/
def Invariants (m : NodeManager) : Prop :=
  1 ≤ m.NodeCount ∧ (m.store.length : Int) = m.NodeCount ∧
  m.head = NodePtr.elem m.NodeArray 0 ∧
  m.tail = NodePtr.elem m.NodeArray (m.NodeCount - 1) ∧
  ∀ i, i < m.store.length →
    (m.cell i).position = (i : Int) ∧
    (m.cell i).next = NodePtr.elem m.NodeArray (((i : Int) + 1) % m.NodeCount) ∧
    (m.cell i).prev = NodePtr.elem m.NodeArray (((i : Int) - 1) % m.NodeCount)

instance (m : NodeManager) : Decidable (Invariants m) := by
  unfold Invariants
  infer_instance

/-! ## Auxiliary definitions

What the loops write, and the intermediate managers of the operations, named
for the statements below. -/

/-- The links that a relinking round writes into slot `i` of a block of `c`
slots at address `b`. -/
def relinked (c : Int) (b : Nat) (i : Nat) (x : Node) : Node :=
  if i = 0 then
    { x with prev := NodePtr.elem b (c - 1), next := NodePtr.elem b (i + 1) }
  else if (i : Int) = c - 1 then
    { x with prev := NodePtr.elem b (i - 1), next := NodePtr.elem b 0 }
  else
    { x with prev := NodePtr.elem b (i - 1), next := NodePtr.elem b (i + 1) }

/-- The links and the position that a relinking round writes into slot `i`. -/
def renumbered (c : Int) (b : Nat) (i : Nat) (x : Node) : Node :=
  { relinked c b i x with position := i }

/-- What the relinking loop of `InsertNodeAtPosition` writes into slot `i`: the
links, and the position except in slot `0`. -/
def relinkedAtPosition (c : Int) (b : Nat) (i : Nat) (x : Node) : Node :=
  if i = 0 then relinked c b i x else renumbered c b i x

/-- The manager that `CreateList` fills in. -/
def blank (NodeCount : Int) (ListID : List Char) (NodeArray : Nat) : NodeManager :=
  { ListID := ListID.take 29
    NodeCount := NodeCount
    head := NodePtr.elem NodeArray 0
    tail := NodePtr.elem NodeArray (NodeCount - 1)
    NodeArray := NodeArray
    store := List.replicate NodeCount.toNat zeroNode }

/-- The manager that `CreateList` returns when both allocations succeed. -/
def created (NodeCount : Int) (ListID : List Char) (NodeArray : Nat) : NodeManager :=
  forUp (fun i s => NodeManager.modify i (renumbered NodeCount NodeArray i) s) 0
    NodeCount.toNat (blank NodeCount ListID NodeArray)

/-- The manager of an insertion right after its `realloc` succeeded: one more
node counted, the new block installed, `head` and `tail` taken from it. -/
def grown (m : NodeManager) (t : Realloc) : NodeManager :=
  { m with
    NodeCount := m.NodeCount + 1
    NodeArray := t.addr
    store := resize m.store (m.NodeCount + 1).toNat t.fresh
    head := NodePtr.elem t.addr 0
    tail := NodePtr.elem t.addr (m.NodeCount + 1 - 1) }

/-- The manager of `InsertNodeAtPosition` when it hands over to
`InsertNodeAtEnd` or `InsertNodeAtBeginning`: one more node counted and the new
block installed, `head` and `tail` not yet reassigned. -/
def counted (m : NodeManager) (t : Realloc) : NodeManager :=
  { m with
    NodeCount := m.NodeCount + 1
    NodeArray := t.addr
    store := resize m.store (m.NodeCount + 1).toNat t.fresh }

/-- The manager that an insertion strictly inside the list leaves. -/
def insertedInside (m : NodeManager) (position : Int) (t : Realloc) : NodeManager :=
  forDown (fun i s => NodeManager.modify i (relinkedAtPosition (m.NodeCount + 1) t.addr i) s) 0
    (m.NodeCount + 1).toNat
    (forDown InsertNodeAtPosition.shift (position.toNat + 1)
      ((m.NodeCount + 1).toNat - 1 - position.toNat) (grown m t))

/-- The manager of a deletion once one node is taken off the count. -/
def decremented (m : NodeManager) : NodeManager :=
  { m with NodeCount := m.NodeCount - 1 }

/-- The manager of a deletion right after its `realloc` to `c` slots
succeeded: the new block installed, nothing else reassigned yet. -/
def shrunk (s : NodeManager) (c : Int) (t : Realloc) : NodeManager :=
  { s with
    NodeArray := t.addr
    store := resize s.store c.toNat t.fresh }

/-- The manager that `DeleteNodeAtPosition` leaves when it does the deletion
itself. -/
def deletedInside (m : NodeManager) (position : Int) (t : Realloc) : NodeManager :=
  forDown (DeleteNodeAtPosition.relink (m.NodeCount - 1) t.addr) 0 (m.NodeCount - 1).toNat
    (shrunk
      (forUp DeleteNodeAtPosition.shift position.toNat
        ((m.NodeCount - 1).toNat - position.toNat) (decremented m))
      (m.NodeCount - 1) t)

/-- The part of a manager that no round of a relinking loop touches. -/
def NodeManager.core (m : NodeManager) : List Char × Int × Nat × Nat :=
  (m.ListID, m.NodeCount, m.NodeArray, m.store.length)

/-! ## Sample data -/

/-- The list that `CreateList(3, "L")` builds at address `100`, after
`SetNodeData` stored the payload addresses `10`, `11` and `12` in its nodes. -/
def threeNodes : NodeManager :=
  { ListID := ['L']
    NodeCount := 3
    head := NodePtr.elem 100 0
    tail := NodePtr.elem 100 2
    NodeArray := 100
    store :=
      [⟨some 10, 0, NodePtr.elem 100 1, NodePtr.elem 100 2⟩,
       ⟨some 11, 1, NodePtr.elem 100 2, NodePtr.elem 100 0⟩,
       ⟨some 12, 2, NodePtr.elem 100 0, NodePtr.elem 100 1⟩] }

/-- The list that `CreateList(1, "L")` builds at address `100`. -/
def oneNode : NodeManager :=
  { ListID := ['L']
    NodeCount := 1
    head := NodePtr.elem 100 0
    tail := NodePtr.elem 100 0
    NodeArray := 100
    store := [⟨none, 0, NodePtr.elem 100 1, NodePtr.elem 100 0⟩] }

/-- A slot of memory that was never written: some payload address, some
position, some links. -/
def staleNode : Node := ⟨some 999, 77, NodePtr.elem 5 5, NodePtr.elem 6 6⟩

/-! ## Slots and assignments -/

namespace NodeManager

theorem cell_setCell (m : NodeManager) (i j : Nat) (x : Node) :
    (m.setCell i x).cell j = if j = i ∧ i < m.store.length then x else m.cell j := by
  simp only [cell, setCell, List.getD_eq_getElem?_getD, List.getElem?_set]
  by_cases h : i = j
  · subst h
    by_cases h2 : i < m.store.length
    · simp [h2]
    · simp [h2]
      rw [List.getElem?_eq_none (by omega)]
      rfl
  · have h3 : ¬ j = i := fun e => h e.symm
    simp [h, h3]

@[simp] theorem length_setCell (m : NodeManager) (i : Nat) (x : Node) :
    (m.setCell i x).store.length = m.store.length := by
  simp [setCell]

@[simp] theorem NodeCount_setCell (m : NodeManager) (i : Nat) (x : Node) :
    (m.setCell i x).NodeCount = m.NodeCount := rfl

@[simp] theorem NodeArray_setCell (m : NodeManager) (i : Nat) (x : Node) :
    (m.setCell i x).NodeArray = m.NodeArray := rfl

@[simp] theorem head_setCell (m : NodeManager) (i : Nat) (x : Node) :
    (m.setCell i x).head = m.head := rfl

@[simp] theorem tail_setCell (m : NodeManager) (i : Nat) (x : Node) :
    (m.setCell i x).tail = m.tail := rfl

@[simp] theorem ListID_setCell (m : NodeManager) (i : Nat) (x : Node) :
    (m.setCell i x).ListID = m.ListID := rfl

theorem setData_eq (m : NodeManager) (i : Nat) (d : Option Nat) :
    m.setData i d = m.modify i (fun x => { x with data := d }) := rfl

theorem setPosition_eq (m : NodeManager) (i : Nat) (p : Int) :
    m.setPosition i p = m.modify i (fun x => { x with position := p }) := rfl

theorem setNext_eq (m : NodeManager) (i : Nat) (p : NodePtr) :
    m.setNext i p = m.modify i (fun x => { x with next := p }) := rfl

theorem setPrev_eq (m : NodeManager) (i : Nat) (p : NodePtr) :
    m.setPrev i p = m.modify i (fun x => { x with prev := p }) := rfl

theorem modify_modify (m : NodeManager) (i : Nat) (f g : Node → Node) :
    (m.modify i f).modify i g = m.modify i (fun x => g (f x)) := by
  unfold modify
  rw [cell_setCell]
  by_cases h : i < m.store.length
  · simp [h, setCell, List.set_set]
  · simp [h, setCell, List.set_eq_of_length_le (Nat.le_of_not_lt h)]

theorem cell_modify (m : NodeManager) (i j : Nat) (f : Node → Node) :
    (m.modify i f).cell j = if j = i ∧ i < m.store.length then f (m.cell i) else m.cell j := by
  unfold modify
  rw [cell_setCell]

@[simp] theorem length_modify (m : NodeManager) (i : Nat) (f : Node → Node) :
    (m.modify i f).store.length = m.store.length := by
  simp [modify]

@[simp] theorem frame_setCell (m : NodeManager) (i : Nat) (x : Node) :
    (m.setCell i x).frame = m.frame := by
  simp [frame]

@[simp] theorem frame_modify (m : NodeManager) (i : Nat) (f : Node → Node) :
    (m.modify i f).frame = m.frame := by
  simp [modify]

end NodeManager

/-- The contents of slot `j` of a resized block. -/
theorem getD_resize (cells : List Node) (n j : Nat) (fresh : Node) :
    (resize cells n fresh).getD j zeroNode =
      if j < n then (if j < cells.length then cells.getD j zeroNode else fresh)
      else zeroNode := by
  simp only [resize, List.getD_eq_getElem?_getD]
  by_cases h1 : j < n
  · by_cases h2 : j < cells.length
    · rw [List.getElem?_append_left (by simp; omega)]
      simp [h1, h2, List.getElem?_take]
    · rw [List.getElem?_append_right (by simp; omega)]
      simp only [List.length_take, List.getElem?_replicate]
      rw [if_pos (by omega)]
      simp [h1, h2]
  · rw [List.getElem?_eq_none (by simp; omega)]
    simp [h1]

@[simp] theorem length_resize (cells : List Node) (n : Nat) (fresh : Node) :
    (resize cells n fresh).length = n := by
  simp [resize]
  omega

/-! ## Loops that rewrite one slot per round -/

/-- A property that every round of a descending loop keeps holds at its end. -/
theorem forDown_keeps {σ : Type} (body : Nat → σ → σ) (P : σ → Prop)
    (step : ∀ i s, P s → P (body i s)) (lo : Nat) :
    ∀ (k : Nat) (s : σ), P s → P (forDown body lo k s)
  | 0, _, h => h
  | k + 1, s, h => forDown_keeps body P step lo k _ (step (lo + k) s h)

/-- A property that every round of an ascending loop keeps holds at its end. -/
theorem forUp_keeps {σ : Type} (body : Nat → σ → σ) (P : σ → Prop)
    (step : ∀ i s, P s → P (body i s)) :
    ∀ (lo k : Nat) (s : σ), P s → P (forUp body lo k s)
  | _, 0, _, h => h
  | lo, k + 1, s, h => forUp_keeps body P step (lo + 1) k _ (step lo s h)

/-- A descending loop whose round `i` rewrites slot `i` alone, from the slot's
own value, rewrites every slot of its range that way. -/
theorem forDown_cell (body : Nat → NodeManager → NodeManager) (g : Nat → Node → Node)
    (hlen : ∀ i m, (body i m).store.length = m.store.length)
    (hcell : ∀ i m j, (body i m).cell j =
      if j = i ∧ i < m.store.length then g i (m.cell i) else m.cell j)
    (lo : Nat) :
    ∀ (k : Nat) (m : NodeManager) (j : Nat),
      (forDown body lo k m).cell j =
        if lo ≤ j ∧ j < lo + k ∧ j < m.store.length then g j (m.cell j) else m.cell j
  | 0, m, j => by
    have h : ¬ (lo ≤ j ∧ j < lo + 0 ∧ j < m.store.length) := by omega
    rw [forDown, if_neg h]
  | k + 1, m, j => by
    rw [forDown, forDown_cell body g hlen hcell lo k, hlen, hcell]
    by_cases h1 : j = lo + k
    · subst h1
      by_cases h2 : lo + k < m.store.length
      · simp [h2]
      · simp [h2]
    · by_cases h2 : lo ≤ j ∧ j < lo + k ∧ j < m.store.length
      · have h3 : lo ≤ j ∧ j < lo + (k + 1) ∧ j < m.store.length := by omega
        simp [h1, h2, h3]
      · have h3 : ¬ (lo ≤ j ∧ j < lo + (k + 1) ∧ j < m.store.length) := by omega
        simp [h1, h2, h3]

/-! ## What the relinking loops write -/

@[simp] theorem data_relinked (c : Int) (b i : Nat) (x : Node) :
    (relinked c b i x).data = x.data := by
  unfold relinked
  split_ifs <;> rfl

@[simp] theorem position_relinked (c : Int) (b i : Nat) (x : Node) :
    (relinked c b i x).position = x.position := by
  unfold relinked
  split_ifs <;> rfl

@[simp] theorem data_renumbered (c : Int) (b i : Nat) (x : Node) :
    (renumbered c b i x).data = x.data := by
  simp [renumbered]

@[simp] theorem position_renumbered (c : Int) (b i : Nat) (x : Node) :
    (renumbered c b i x).position = i := rfl

/-- In a block of at least two slots the written `next` is the circular
successor. -/
theorem next_relinked (c : Int) (b i : Nat) (x : Node) (hc : 2 ≤ c) (hi : (i : Int) < c) :
    (relinked c b i x).next = NodePtr.elem b (((i : Int) + 1) % c) := by
  unfold relinked
  split_ifs with h0 h1
  · subst h0
    rw [Int.emod_eq_of_lt (by omega) (by omega)]
  · have e : ((i : Int) + 1) = c := by omega
    rw [e, Int.emod_self]
  · rw [Int.emod_eq_of_lt (by omega) (by omega)]

/-- In a block of at least two slots the written `prev` is the circular
predecessor. -/
theorem prev_relinked (c : Int) (b i : Nat) (x : Node) (hc : 2 ≤ c) (hi : (i : Int) < c) :
    (relinked c b i x).prev = NodePtr.elem b (((i : Int) - 1) % c) := by
  have hwrap : ((0 : Int) - 1) % c = c - 1 := by
    have e : ((0 : Int) - 1) = (c - 1) + (-1) * c := by ring
    rw [e, Int.add_mul_emod_self, Int.emod_eq_of_lt (by omega) (by omega)]
  unfold relinked
  split_ifs with h0 h1
  · subst h0
    simp only [Nat.cast_zero, hwrap]
  · rw [Int.emod_eq_of_lt (by omega) (by omega)]
  · rw [Int.emod_eq_of_lt (by omega) (by omega)]

@[simp] theorem next_renumbered (c : Int) (b i : Nat) (x : Node) :
    (renumbered c b i x).next = (relinked c b i x).next := rfl

@[simp] theorem prev_renumbered (c : Int) (b i : Nat) (x : Node) :
    (renumbered c b i x).prev = (relinked c b i x).prev := rfl

theorem InsertNodeAtEnd_relink_round (c : Int) (b i : Nat) (m : NodeManager) :
    InsertNodeAtEnd.relink c b i m = m.modify i (renumbered c b i) := by
  unfold InsertNodeAtEnd.relink
  split_ifs with h0 h1 <;>
    simp only [NodeManager.setPosition_eq, NodeManager.setNext_eq, NodeManager.setPrev_eq,
      NodeManager.modify_modify] <;>
    congr 1 <;> funext x <;> simp [renumbered, relinked, *]

theorem InsertNodeAtBeginning_relink_round (c : Int) (b i : Nat) (m : NodeManager) :
    InsertNodeAtBeginning.relink c b i m = m.modify i (renumbered c b i) := by
  unfold InsertNodeAtBeginning.relink
  split_ifs with h0 h1 <;>
    simp only [NodeManager.setPosition_eq, NodeManager.setNext_eq, NodeManager.setPrev_eq,
      NodeManager.modify_modify] <;>
    congr 1 <;> funext x <;> simp [renumbered, relinked, *]

/-- A descending loop of slot rewritings rewrites every slot of its range. -/
theorem forDown_modify_cell (g : Nat → Node → Node) (lo k : Nat) (m : NodeManager) (j : Nat) :
    (forDown (fun i s => NodeManager.modify i (g i) s) lo k m).cell j =
      if lo ≤ j ∧ j < lo + k ∧ j < m.store.length then g j (m.cell j) else m.cell j :=
  forDown_cell _ g (fun i s => NodeManager.length_modify s i (g i))
    (fun i s j => NodeManager.cell_modify s i j (g i)) lo k m j

/-- A descending loop of slot rewritings leaves the rest of the manager alone. -/
theorem forDown_modify_frame (g : Nat → Node → Node) (lo k : Nat) (m : NodeManager) :
    (forDown (fun i s => NodeManager.modify i (g i) s) lo k m).frame = m.frame :=
  forDown_keeps _ (fun s => s.frame = m.frame)
    (fun i s h => (NodeManager.frame_modify s i (g i)).trans h) lo k m rfl

/-! ## The insertions, in closed form -/

theorem frame_grown (m : NodeManager) (t : Realloc) :
    (grown m t).frame =
      (m.ListID, m.NodeCount + 1, NodePtr.elem t.addr 0,
        NodePtr.elem t.addr (m.NodeCount + 1 - 1), t.addr, (m.NodeCount + 1).toNat) := by
  simp [NodeManager.frame, grown]

theorem cell_grown (m : NodeManager) (t : Realloc) (j : Nat) :
    (grown m t).cell j =
      if j < (m.NodeCount + 1).toNat then (if j < m.store.length then m.cell j else t.fresh)
      else zeroNode := by
  simp only [NodeManager.cell, grown, getD_resize]

theorem InsertNodeAtEnd_frame (m : NodeManager) (t : Realloc) :
    (InsertNodeAtEnd m (some t)).2.frame = (grown m t).frame := by
  have e : InsertNodeAtEnd.relink (m.NodeCount + 1) t.addr =
      fun i s => NodeManager.modify i (renumbered (m.NodeCount + 1) t.addr i) s := by
    funext i s
    exact InsertNodeAtEnd_relink_round _ _ i s
  simp only [InsertNodeAtEnd, e, forDown_modify_frame]
  rfl

theorem InsertNodeAtEnd_cell (m : NodeManager) (t : Realloc) (j : Nat) :
    (InsertNodeAtEnd m (some t)).2.cell j =
      if j < (m.NodeCount + 1).toNat then
        renumbered (m.NodeCount + 1) t.addr j (if j < m.store.length then m.cell j else t.fresh)
      else zeroNode := by
  have e : InsertNodeAtEnd.relink (m.NodeCount + 1) t.addr =
      fun i s => NodeManager.modify i (renumbered (m.NodeCount + 1) t.addr i) s := by
    funext i s
    exact InsertNodeAtEnd_relink_round _ _ i s
  simp only [InsertNodeAtEnd, e, forDown_modify_cell]
  simp only [NodeManager.cell, getD_resize, length_resize]
  by_cases h : j < (m.NodeCount + 1).toNat
  · simp [h]
  · simp [h]

/-! ## Loops that shift slots to the right -/

/-- A descending loop whose round `i` copies the payload of slot `i - 1` into
slot `i` moves the payloads of its range one slot to the right. -/
theorem forDown_shift_data (body : Nat → NodeManager → NodeManager)
    (hlen : ∀ i m, (body i m).store.length = m.store.length)
    (hdata : ∀ i m j, ((body i m).cell j).data =
      if j = i ∧ i < m.store.length then (m.cell (i - 1)).data else (m.cell j).data)
    (lo : Nat) (hlo : 1 ≤ lo) :
    ∀ (k : Nat) (m : NodeManager) (j : Nat),
      ((forDown body lo k m).cell j).data =
        if lo ≤ j ∧ j < lo + k ∧ j < m.store.length then (m.cell (j - 1)).data
        else (m.cell j).data
  | 0, m, j => by
    have h : ¬ (lo ≤ j ∧ j < lo + 0 ∧ j < m.store.length) := by omega
    rw [forDown, if_neg h]
  | k + 1, m, j => by
    rw [forDown, forDown_shift_data body hlen hdata lo hlo k, hlen, hdata, hdata]
    by_cases h1 : j = lo + k
    · subst h1
      by_cases h2 : lo + k < m.store.length
      · have h3 : ¬ (lo ≤ lo + k ∧ lo + k < lo + k ∧ lo + k < m.store.length) := by omega
        have h4 : lo ≤ lo + k ∧ lo + k < lo + (k + 1) ∧ lo + k < m.store.length := by omega
        simp [h2, h3, h4]
      · have h3 : ¬ (lo ≤ lo + k ∧ lo + k < lo + k ∧ lo + k < m.store.length) := by omega
        have h4 : ¬ (lo ≤ lo + k ∧ lo + k < lo + (k + 1) ∧ lo + k < m.store.length) := by
          omega
        simp [h2, h3, h4]
    · by_cases h2 : lo ≤ j ∧ j < lo + k ∧ j < m.store.length
      · have h3 : lo ≤ j ∧ j < lo + (k + 1) ∧ j < m.store.length := by omega
        have h4 : ¬ (j - 1 = lo + k ∧ lo + k < m.store.length) := by omega
        simp [h1, h2, h3, h4]
      · have h3 : ¬ (lo ≤ j ∧ j < lo + (k + 1) ∧ j < m.store.length) := by omega
        simp [h1, h2, h3]

/-- A descending loop whose round `i` writes slot `i` alone leaves the slots
below its range as they were. -/
theorem forDown_below (body : Nat → NodeManager → NodeManager)
    (hother : ∀ i m j, j ≠ i → (body i m).cell j = m.cell j) (lo : Nat) :
    ∀ (k : Nat) (m : NodeManager) (j : Nat), j < lo → (forDown body lo k m).cell j = m.cell j
  | 0, _, _, _ => rfl
  | k + 1, m, j, h => by
    rw [forDown, forDown_below body hother lo k _ j h, hother _ _ _ (by omega)]

/-- Two loop bodies that agree on the states of a set which one of them keeps
run the same loop from a state of that set. -/
theorem forDown_congr_on {σ : Type} (body body2 : Nat → σ → σ) (P : σ → Prop)
    (step : ∀ i s, P s → P (body2 i s)) (agree : ∀ i s, P s → body i s = body2 i s)
    (lo : Nat) :
    ∀ (k : Nat) (s : σ), P s → forDown body lo k s = forDown body2 lo k s
  | 0, _, _ => rfl
  | k + 1, s, h => by
    rw [forDown, forDown, agree _ _ h]
    exact forDown_congr_on body body2 P step agree lo k _ (step _ _ h)

theorem InsertNodeAtBeginning_shift_round_frame (i : Nat) (m : NodeManager) :
    (InsertNodeAtBeginning.shift i m).frame = m.frame := by
  simp [InsertNodeAtBeginning.shift, NodeManager.setPosition_eq]

theorem InsertNodeAtBeginning_shift_round_data (i : Nat) (m : NodeManager) (j : Nat) :
    ((InsertNodeAtBeginning.shift i m).cell j).data =
      if j = i ∧ i < m.store.length then (m.cell (i - 1)).data else (m.cell j).data := by
  simp only [InsertNodeAtBeginning.shift, NodeManager.setPosition_eq,
    NodeManager.cell_setCell, NodeManager.cell_modify, NodeManager.length_modify]
  by_cases h1 : j = i ∧ i < m.store.length
  · rw [if_pos h1, if_pos h1]
    split_ifs <;> rfl
  · rw [if_neg h1, if_neg h1]
    split_ifs with h2
    · rw [h2.1]
    · rfl

theorem InsertNodeAtPosition_shift_round_frame (i : Nat) (m : NodeManager) :
    (InsertNodeAtPosition.shift i m).frame = m.frame := by
  simp [InsertNodeAtPosition.shift, NodeManager.setPosition_eq]

theorem InsertNodeAtPosition_shift_round_cell (i : Nat) (m : NodeManager) (j : Nat) :
    (InsertNodeAtPosition.shift i m).cell j =
      if j = i ∧ i < m.store.length then { m.cell (i - 1) with position := i }
      else m.cell j := by
  simp only [InsertNodeAtPosition.shift, NodeManager.setPosition_eq,
    NodeManager.cell_setCell, NodeManager.cell_modify, NodeManager.length_setCell]
  by_cases h1 : j = i ∧ i < m.store.length
  · obtain ⟨rfl, h2⟩ := h1
    simp [h2]
  · simp only [if_neg h1]

theorem InsertNodeAtPosition_shift_round_data (i : Nat) (m : NodeManager) (j : Nat) :
    ((InsertNodeAtPosition.shift i m).cell j).data =
      if j = i ∧ i < m.store.length then (m.cell (i - 1)).data else (m.cell j).data := by
  rw [InsertNodeAtPosition_shift_round_cell]
  split_ifs <;> rfl

theorem InsertNodeAtPosition_relink_round (c : Int) (b i : Nat) (m : NodeManager)
    (hh : m.head = NodePtr.elem b 0) (ht : m.tail = NodePtr.elem b (c - 1)) :
    InsertNodeAtPosition.relink c b i m = m.modify i (relinkedAtPosition c b i) := by
  unfold InsertNodeAtPosition.relink
  split_ifs with h0 h1
  · subst h0
    have e : ({ m with head := NodePtr.elem b ((0 : Nat) : Int),
                       tail := NodePtr.elem b (c - 1) } : NodeManager) = m := by
      cases m
      simp_all
    rw [e]
    simp only [NodeManager.setNext_eq, NodeManager.setPrev_eq, NodeManager.modify_modify]
    congr 1
  · simp only [NodeManager.setPosition_eq, NodeManager.setNext_eq, NodeManager.setPrev_eq,
      NodeManager.modify_modify]
    congr 1
    funext x
    simp [relinkedAtPosition, renumbered, relinked, *]
  · simp only [NodeManager.setPosition_eq, NodeManager.setNext_eq, NodeManager.setPrev_eq,
      NodeManager.modify_modify]
    congr 1
    funext x
    simp [relinkedAtPosition, renumbered, relinked, *]

theorem InsertNodeAtBeginning_eq (m : NodeManager) (t : Realloc) :
    (InsertNodeAtBeginning m (some t)).2 =
      forDown (fun i s => NodeManager.modify i (renumbered (m.NodeCount + 1) t.addr i) s) 0
        (m.NodeCount + 1).toNat
        (forDown InsertNodeAtBeginning.shift 1 ((m.NodeCount + 1).toNat - 1) (grown m t)) := by
  have e : InsertNodeAtBeginning.relink (m.NodeCount + 1) t.addr =
      fun i s => NodeManager.modify i (renumbered (m.NodeCount + 1) t.addr i) s := by
    funext i s
    exact InsertNodeAtBeginning_relink_round _ _ i s
  simp only [InsertNodeAtBeginning, e]
  rfl

theorem InsertNodeAtBeginning_shift_frame (m : NodeManager) (t : Realloc) (k : Nat) :
    (forDown InsertNodeAtBeginning.shift 1 k (grown m t)).frame = (grown m t).frame :=
  forDown_keeps _ (fun s => s.frame = (grown m t).frame)
    (fun i s h => (InsertNodeAtBeginning_shift_round_frame i s).trans h) 1 k _ rfl

theorem InsertNodeAtBeginning_frame (m : NodeManager) (t : Realloc) :
    (InsertNodeAtBeginning m (some t)).2.frame = (grown m t).frame := by
  rw [InsertNodeAtBeginning_eq, forDown_modify_frame, InsertNodeAtBeginning_shift_frame]

theorem length_of_frame {s s2 : NodeManager} (h : s.frame = s2.frame) :
    s.store.length = s2.store.length := by
  simp only [NodeManager.frame, Prod.mk.injEq] at h
  exact h.2.2.2.2.2

theorem InsertNodeAtBeginning_links (m : NodeManager) (t : Realloc) (j : Nat)
    (hj : j < (m.NodeCount + 1).toNat) :
    ∃ x, (InsertNodeAtBeginning m (some t)).2.cell j =
      renumbered (m.NodeCount + 1) t.addr j x := by
  rw [InsertNodeAtBeginning_eq, forDown_modify_cell,
    length_of_frame (InsertNodeAtBeginning_shift_frame m t _)]
  have hl : (grown m t).store.length = (m.NodeCount + 1).toNat := by simp [grown]
  rw [if_pos (by omega)]
  exact ⟨_, rfl⟩

theorem InsertNodeAtBeginning_data (m : NodeManager) (t : Realloc) (j : Nat) :
    ((InsertNodeAtBeginning m (some t)).2.cell j).data =
      if 1 ≤ j ∧ j < (m.NodeCount + 1).toNat then ((grown m t).cell (j - 1)).data
      else ((grown m t).cell j).data := by
  have hl : (grown m t).store.length = (m.NodeCount + 1).toNat := by simp [grown]
  have hs := forDown_shift_data InsertNodeAtBeginning.shift
    (fun i s => length_of_frame (InsertNodeAtBeginning_shift_round_frame i s))
    InsertNodeAtBeginning_shift_round_data 1 (le_refl 1) ((m.NodeCount + 1).toNat - 1) (grown m t) j
  rw [InsertNodeAtBeginning_eq, forDown_modify_cell]
  split_ifs with h1 h2 h3
  · rw [data_renumbered, hs, if_pos (by omega)]
  · rw [data_renumbered, hs, if_neg (by omega)]
  · rw [hs, if_pos (by omega)]
  · rw [hs, if_neg (by omega)]

theorem InsertNodeAtPosition_shift_frame (m : NodeManager) (t : Realloc) (lo k : Nat) :
    (forDown InsertNodeAtPosition.shift lo k (grown m t)).frame = (grown m t).frame :=
  forDown_keeps _ (fun s => s.frame = (grown m t).frame)
    (fun i s h => (InsertNodeAtPosition_shift_round_frame i s).trans h) lo k _ rfl

theorem head_of_frame {s s2 : NodeManager} (h : s.frame = s2.frame) : s.head = s2.head := by
  simp only [NodeManager.frame, Prod.mk.injEq] at h
  exact h.2.2.1

theorem tail_of_frame {s s2 : NodeManager} (h : s.frame = s2.frame) : s.tail = s2.tail := by
  simp only [NodeManager.frame, Prod.mk.injEq] at h
  exact h.2.2.2.1

theorem NodeArray_of_frame {s s2 : NodeManager} (h : s.frame = s2.frame) :
    s.NodeArray = s2.NodeArray := by
  simp only [NodeManager.frame, Prod.mk.injEq] at h
  exact h.2.2.2.2.1

theorem NodeCount_of_frame {s s2 : NodeManager} (h : s.frame = s2.frame) :
    s.NodeCount = s2.NodeCount := by
  simp only [NodeManager.frame, Prod.mk.injEq] at h
  exact h.2.1

/-- The relinking loop of `InsertNodeAtPosition`, run on a manager whose `head`
and `tail` are already those it assigns, is a loop of slot rewritings. -/
theorem InsertNodeAtPosition_relink_loop (c : Int) (b : Nat) (k : Nat) (s : NodeManager)
    (hh : s.head = NodePtr.elem b 0) (ht : s.tail = NodePtr.elem b (c - 1)) :
    forDown (InsertNodeAtPosition.relink c b) 0 k s =
      forDown (fun i s => NodeManager.modify i (relinkedAtPosition c b i) s) 0 k s :=
  forDown_congr_on _ _ (fun s => s.head = NodePtr.elem b 0 ∧ s.tail = NodePtr.elem b (c - 1))
    (fun i s h => by
      have e := NodeManager.frame_modify s i (relinkedAtPosition c b i)
      exact ⟨(head_of_frame e).trans h.1, (tail_of_frame e).trans h.2⟩)
    (fun i s h => InsertNodeAtPosition_relink_round c b i s h.1 h.2) 0 k s ⟨hh, ht⟩

theorem frame_insertedInside (m : NodeManager) (position : Int) (t : Realloc) :
    (insertedInside m position t).frame = (grown m t).frame := by
  rw [insertedInside, forDown_modify_frame, InsertNodeAtPosition_shift_frame]

theorem InsertNodeAtPosition_inside (m : NodeManager) (position : Int) (t : Realloc)
    (r2 : Option Realloc) (h0 : 0 < position) (hn : position < m.NodeCount) :
    InsertNodeAtPosition m position (some t) r2 =
      (NodePtr.elem t.addr position, insertedInside m position t) := by
  have hg : ¬ (position < 0 ∨ position > m.NodeCount) := by omega
  have h1 : ¬ position = m.NodeCount + 1 - 1 := by omega
  have h2 : ¬ position = 0 := by omega
  have hf := InsertNodeAtPosition_shift_frame m t (position.toNat + 1)
    ((m.NodeCount + 1).toNat - 1 - position.toNat)
  have hloop := InsertNodeAtPosition_relink_loop (m.NodeCount + 1) t.addr
    (m.NodeCount + 1).toNat _ ((head_of_frame hf).trans rfl) ((tail_of_frame hf).trans rfl)
  have key : InsertNodeAtPosition m position (some t) r2 =
      (NodePtr.elem (forDown (InsertNodeAtPosition.relink (m.NodeCount + 1) t.addr) 0
          (m.NodeCount + 1).toNat
          (forDown InsertNodeAtPosition.shift (position.toNat + 1)
            ((m.NodeCount + 1).toNat - 1 - position.toNat) (grown m t))).NodeArray position,
        forDown (InsertNodeAtPosition.relink (m.NodeCount + 1) t.addr) 0
          (m.NodeCount + 1).toNat
          (forDown InsertNodeAtPosition.shift (position.toNat + 1)
            ((m.NodeCount + 1).toNat - 1 - position.toNat) (grown m t))) := by
    simp only [InsertNodeAtPosition, if_neg hg, if_neg h1, if_neg h2]
    rfl
  rw [key, hloop, ← insertedInside, NodeArray_of_frame (frame_insertedInside m position t)]
  rfl

theorem insertedInside_cell (m : NodeManager) (position : Int) (t : Realloc) (j : Nat)
    (hj : j < (m.NodeCount + 1).toNat) :
    (insertedInside m position t).cell j =
      relinkedAtPosition (m.NodeCount + 1) t.addr j
        ((forDown InsertNodeAtPosition.shift (position.toNat + 1)
          ((m.NodeCount + 1).toNat - 1 - position.toNat) (grown m t)).cell j) := by
  have hl : (grown m t).store.length = (m.NodeCount + 1).toNat := by simp [grown]
  rw [insertedInside, forDown_modify_cell,
    length_of_frame (InsertNodeAtPosition_shift_frame m t _ _), if_pos (by omega)]

theorem insertedInside_data (m : NodeManager) (position : Int) (t : Realloc) (j : Nat) :
    ((insertedInside m position t).cell j).data =
      if position.toNat + 1 ≤ j ∧ j < (m.NodeCount + 1).toNat then
        ((grown m t).cell (j - 1)).data
      else ((grown m t).cell j).data := by
  have hl : (grown m t).store.length = (m.NodeCount + 1).toNat := by simp [grown]
  have hs := forDown_shift_data InsertNodeAtPosition.shift
    (fun i s => length_of_frame (InsertNodeAtPosition_shift_round_frame i s))
    InsertNodeAtPosition_shift_round_data (position.toNat + 1) (by omega)
    ((m.NodeCount + 1).toNat - 1 - position.toNat) (grown m t) j
  have hd : ∀ x, (relinkedAtPosition (m.NodeCount + 1) t.addr j x).data = x.data := by
    intro x
    unfold relinkedAtPosition
    split_ifs <;> simp
  rw [insertedInside, forDown_modify_cell]
  split_ifs with h1 h2 h3
  · rw [hd, hs, if_pos (by omega)]
  · rw [hd, hs, if_neg (by omega)]
  · rw [hs, if_pos (by omega)]
  · rw [hs, if_neg (by omega)]

theorem insertedInside_head (m : NodeManager) (position : Int) (t : Realloc)
    (h0 : 0 ≤ m.NodeCount) :
    (insertedInside m position t).cell 0 =
      relinked (m.NodeCount + 1) t.addr 0 ((grown m t).cell 0) := by
  have hb := forDown_below InsertNodeAtPosition.shift
    (fun i s j h => by rw [InsertNodeAtPosition_shift_round_cell, if_neg (fun e => h e.1)])
    (position.toNat + 1) ((m.NodeCount + 1).toNat - 1 - position.toNat) (grown m t) 0
    (by omega)
  have hl : (grown m t).store.length = (m.NodeCount + 1).toNat := by simp [grown]
  have hl2 := length_of_frame (InsertNodeAtPosition_shift_frame m t (position.toNat + 1)
    ((m.NodeCount + 1).toNat - 1 - position.toNat))
  rw [insertedInside, forDown_modify_cell, hb, if_pos (by omega)]
  rfl

theorem InsertNodeAtPosition_last (m : NodeManager) (t : Realloc) (r2 : Option Realloc)
    (h : 0 ≤ m.NodeCount) :
    InsertNodeAtPosition m m.NodeCount (some t) r2 =
      (NodePtr.null, (InsertNodeAtEnd (counted m t) r2).2) := by
  have hg : ¬ (m.NodeCount < 0 ∨ m.NodeCount > m.NodeCount) := by omega
  have h1 : m.NodeCount = m.NodeCount + 1 - 1 := by omega
  simp only [InsertNodeAtPosition, if_neg hg, if_pos h1]
  rfl

theorem InsertNodeAtPosition_first (m : NodeManager) (t : Realloc) (r2 : Option Realloc)
    (h : 1 ≤ m.NodeCount) :
    InsertNodeAtPosition m 0 (some t) r2 =
      (NodePtr.null, (InsertNodeAtBeginning (counted m t) r2).2) := by
  have hg : ¬ ((0 : Int) < 0 ∨ 0 > m.NodeCount) := by omega
  have h1 : ¬ (0 : Int) = m.NodeCount + 1 - 1 := by omega
  simp only [InsertNodeAtPosition, if_neg hg, if_neg h1]
  rfl

/-! ## Establishing the invariants -/

/-- A manager of at least two nodes whose slots carry their index and the links
that a relinking round writes satisfies the structural invariants. -/
theorem Invariants_of_relinked (s : NodeManager) (c : Int) (b : Nat) (hc : 2 ≤ c)
    (hN : s.NodeCount = c) (hA : s.NodeArray = b) (hh : s.head = NodePtr.elem b 0)
    (ht : s.tail = NodePtr.elem b (c - 1)) (hl : (s.store.length : Int) = c)
    (hcell : ∀ j, j < s.store.length → (s.cell j).position = (j : Int) ∧
      ∃ x, (s.cell j).next = (relinked c b j x).next ∧
        (s.cell j).prev = (relinked c b j x).prev) :
    Invariants s := by
  refine ⟨by omega, by omega, by rw [hh, hA], by rw [ht, hA, hN], ?_⟩
  intro j hj
  obtain ⟨hp, x, hn, hv⟩ := hcell j hj
  refine ⟨hp, ?_, ?_⟩
  · rw [hn, hA, hN, next_relinked c b j x hc (by omega)]
  · rw [hv, hA, hN, prev_relinked c b j x hc (by omega)]

/-- After `InsertNodeAtEnd` the invariants hold, whatever the links were. -/
theorem Invariants_after_InsertNodeAtEnd (m : NodeManager) (t : Realloc) (h : 1 ≤ m.NodeCount) :
    Invariants (InsertNodeAtEnd m (some t)).2 := by
  have hf := InsertNodeAtEnd_frame m t
  have hl : (InsertNodeAtEnd m (some t)).2.store.length = (m.NodeCount + 1).toNat :=
    (length_of_frame hf).trans (by simp [grown])
  refine Invariants_of_relinked _ (m.NodeCount + 1) t.addr (by omega) (NodeCount_of_frame hf)
    (NodeArray_of_frame hf) (head_of_frame hf) (tail_of_frame hf) (by omega) ?_
  intro j hj
  rw [InsertNodeAtEnd_cell, if_pos (by omega)]
  exact ⟨rfl, _, rfl, rfl⟩

/-- After `InsertNodeAtBeginning` the invariants hold, whatever the links were. -/
theorem Invariants_after_InsertNodeAtBeginning (m : NodeManager) (t : Realloc)
    (h : 1 ≤ m.NodeCount) : Invariants (InsertNodeAtBeginning m (some t)).2 := by
  have hf := InsertNodeAtBeginning_frame m t
  have hl : (InsertNodeAtBeginning m (some t)).2.store.length = (m.NodeCount + 1).toNat :=
    (length_of_frame hf).trans (by simp [grown])
  refine Invariants_of_relinked _ (m.NodeCount + 1) t.addr (by omega) (NodeCount_of_frame hf)
    (NodeArray_of_frame hf) (head_of_frame hf) (tail_of_frame hf) (by omega) ?_
  intro j hj
  obtain ⟨x, hx⟩ := InsertNodeAtBeginning_links m t j (by omega)
  rw [hx]
  exact ⟨rfl, _, rfl, rfl⟩

/-- After an insertion strictly inside a list that satisfies the invariants,
the invariants hold. -/
theorem Invariants_insertedInside (m : NodeManager) (position : Int) (t : Realloc)
    (h : Invariants m) : Invariants (insertedInside m position t) := by
  obtain ⟨h1, hlen, -, -, hcells⟩ := h
  have hf := frame_insertedInside m position t
  have hl : (insertedInside m position t).store.length = (m.NodeCount + 1).toNat :=
    (length_of_frame hf).trans (by simp [grown])
  refine Invariants_of_relinked _ (m.NodeCount + 1) t.addr (by omega) (NodeCount_of_frame hf)
    (NodeArray_of_frame hf) (head_of_frame hf) (tail_of_frame hf) (by omega) ?_
  intro j hj
  by_cases hj0 : j = 0
  · subst hj0
    rw [insertedInside_head m position t (by omega), cell_grown, if_pos (by omega),
      if_pos (by omega)]
    refine ⟨?_, _, rfl, rfl⟩
    rw [position_relinked]
    exact (hcells 0 (by omega)).1
  · rw [insertedInside_cell m position t j (by omega)]
    unfold relinkedAtPosition
    rw [if_neg hj0]
    exact ⟨rfl, _, rfl, rfl⟩

/-! ## The sample list -/

/-- The sample list is what the library builds. -/
theorem threeNodes_built :
    (CreateList 3 ['L'] true (some 100)).map
      (fun m => (SetNodeData (SetNodeData (SetNodeData m 0 (some 10)).2 1 (some 11)).2 2
        (some 12)).2) = some threeNodes := by
  decide

/-! ## CreateList, in closed form -/

theorem CreateList_init_round (c : Int) (b i : Nat) (m : NodeManager) :
    CreateList.init c b i m = m.modify i (renumbered c b i) := by
  unfold CreateList.init
  split_ifs with h0 h1 <;>
    simp only [NodeManager.setPosition_eq, NodeManager.setNext_eq, NodeManager.setPrev_eq,
      NodeManager.modify_modify] <;>
    congr 1 <;> funext x <;> simp [renumbered, relinked, *]

/-- An ascending loop whose round `i` rewrites slot `i` alone, from the slot's
own value, rewrites every slot of its range that way. -/
theorem forUp_modify_cell (g : Nat → Node → Node) :
    ∀ (lo k : Nat) (m : NodeManager) (j : Nat),
      (forUp (fun i s => NodeManager.modify i (g i) s) lo k m).cell j =
        if lo ≤ j ∧ j < lo + k ∧ j < m.store.length then g j (m.cell j) else m.cell j
  | lo, 0, m, j => by
    have h : ¬ (lo ≤ j ∧ j < lo + 0 ∧ j < m.store.length) := by omega
    rw [forUp, if_neg h]
  | lo, k + 1, m, j => by
    rw [forUp, forUp_modify_cell g (lo + 1) k, NodeManager.length_modify,
      NodeManager.cell_modify]
    by_cases h1 : j = lo
    · subst h1
      have h3 : ¬ (j + 1 ≤ j ∧ j < j + 1 + k ∧ j < m.store.length) := by omega
      by_cases h2 : j < m.store.length
      · have h4 : j ≤ j ∧ j < j + (k + 1) ∧ j < m.store.length := by omega
        simp [h2, h3, h4]
      · have h4 : ¬ (j ≤ j ∧ j < j + (k + 1) ∧ j < m.store.length) := by omega
        simp [h2, h3, h4]
    · by_cases h2 : lo + 1 ≤ j ∧ j < lo + 1 + k ∧ j < m.store.length
      · have h3 : lo ≤ j ∧ j < lo + (k + 1) ∧ j < m.store.length := by omega
        simp [h1, h2, h3]
      · have h3 : ¬ (lo ≤ j ∧ j < lo + (k + 1) ∧ j < m.store.length) := by omega
        simp [h1, h2, h3]

/-- An ascending loop of slot rewritings leaves the rest of the manager alone. -/
theorem forUp_modify_frame (g : Nat → Node → Node) (lo k : Nat) (m : NodeManager) :
    (forUp (fun i s => NodeManager.modify i (g i) s) lo k m).frame = m.frame :=
  forUp_keeps _ (fun s => s.frame = m.frame)
    (fun i s h => (NodeManager.frame_modify s i (g i)).trans h) lo k m rfl

theorem CreateList_eq (NodeCount : Int) (ListID : List Char) (NodeArray : Nat)
    (h : 1 ≤ NodeCount) :
    CreateList NodeCount ListID true (some NodeArray) =
      some (forUp (fun i s => NodeManager.modify i (renumbered NodeCount NodeArray i) s) 0
        NodeCount.toNat (blank NodeCount ListID NodeArray)) := by
  have e : CreateList.init NodeCount NodeArray =
      fun i s => NodeManager.modify i (renumbered NodeCount NodeArray i) s := by
    funext i s
    exact CreateList_init_round _ _ i s
  have hg : ¬ NodeCount ≤ 0 := by omega
  simp only [CreateList, if_neg hg, e]
  rfl

/-! ## Creation -/

/-- Claim C1.  `CreateList` gives no manager when the count is zero or negative,
whatever the allocator does; when the count is at least one and both
allocations succeed it gives a manager whose `NodeCount` is the count and whose
block has exactly that many slots. -/
theorem CreateList_count (NodeCount : Int) (ListID : List Char) (managerAlloc : Bool)
    (arrayAlloc : Option Nat) (NodeArray : Nat) :
    (NodeCount ≤ 0 → CreateList NodeCount ListID managerAlloc arrayAlloc = none) ∧
    (1 ≤ NodeCount → ∃ m, CreateList NodeCount ListID true (some NodeArray) = some m ∧
      m.NodeCount = NodeCount ∧ (m.store.length : Int) = NodeCount) := by
  constructor
  · intro h
    simp [CreateList, h]
  · intro h
    refine ⟨_, CreateList_eq NodeCount ListID NodeArray h, ?_, ?_⟩
    · exact NodeCount_of_frame (forUp_modify_frame _ 0 _ _)
    · rw [length_of_frame (forUp_modify_frame _ 0 _ _)]
      simp only [blank, List.length_replicate]
      omega

theorem CreateList_count_witness :
    CreateList 0 ['L'] true (some 100) = none ∧
    ∃ m, CreateList 3 ['L'] true (some 100) = some m ∧
      m.NodeCount = 3 ∧ (m.store.length : Int) = 3 :=
  ⟨(CreateList_count 0 ['L'] true (some 100) 100).1 (by decide),
   (CreateList_count 3 ['L'] true (some 100) 100).2 (by decide)⟩

/-- Claim C2, at the count where the code departs from it.  `CreateList(1, ..)`
gives a single node whose `next` is the address one past the end of the block,
not the node itself, so the manager does not satisfy the invariants. -/
theorem CreateList_one_next_past_end (ListID : List Char) (NodeArray : Nat) :
    ∃ m, CreateList 1 ListID true (some NodeArray) = some m ∧
      m.NodeCount = 1 ∧ m.store.length = 1 ∧
      (m.cell 0).prev = NodePtr.elem NodeArray 0 ∧
      (m.cell 0).next = NodePtr.elem NodeArray 1 ∧
      (m.cell 0).next ≠ NodePtr.elem NodeArray 0 ∧
      ¬ Invariants m := by
  refine ⟨⟨ListID.take 29, 1, NodePtr.elem NodeArray 0, NodePtr.elem NodeArray 0, NodeArray,
    [⟨none, 0, NodePtr.elem NodeArray 1, NodePtr.elem NodeArray 0⟩]⟩,
    rfl, rfl, rfl, rfl, rfl, ?_, ?_⟩
  · simp [NodeManager.cell]
  · intro h
    have h2 := (h.2.2.2.2 0 (Nat.zero_lt_one)).2.1
    simp [NodeManager.cell] at h2

/-- From two nodes on, the list that `CreateList` builds satisfies the
structural invariants. -/
theorem CreateList_invariants (NodeCount : Int) (ListID : List Char) (NodeArray : Nat)
    (h : 2 ≤ NodeCount) :
    ∃ m, CreateList NodeCount ListID true (some NodeArray) = some m ∧ Invariants m := by
  refine ⟨_, CreateList_eq NodeCount ListID NodeArray (by omega), ?_⟩
  have hf := forUp_modify_frame (renumbered NodeCount NodeArray) 0 NodeCount.toNat
    (blank NodeCount ListID NodeArray)
  have hl : (blank NodeCount ListID NodeArray).store.length = NodeCount.toNat := by
    simp [blank]
  refine Invariants_of_relinked _ NodeCount NodeArray h (NodeCount_of_frame hf)
    (NodeArray_of_frame hf) (head_of_frame hf) (tail_of_frame hf)
    (by rw [length_of_frame hf, hl]; omega) ?_
  intro j hj
  rw [length_of_frame hf, hl] at hj
  rw [forUp_modify_cell, if_pos (by omega)]
  exact ⟨rfl, _, rfl, rfl⟩

/-! ## Insertion -/

/-- Claim C3.  On a manager that satisfies the structural invariants (so with at
least one node), every successful insertion leaves a manager that satisfies
them again for its new count: `InsertNodeAtEnd` and `InsertNodeAtBeginning`
whose `realloc` succeeds, and `InsertNodeAtPosition` at a position from `0` to
the count whose `realloc` succeeds and which either returns a node or, where it
hands over to one of the other two, has their `realloc` succeed as well. -/
theorem insertion_keeps_invariants (m : NodeManager) (h : Invariants m) (t : Realloc)
    (position : Int) (h0 : 0 ≤ position) (hn : position ≤ m.NodeCount)
    (r2 : Option Realloc)
    (hs : (InsertNodeAtPosition m position (some t) r2).1 ≠ NodePtr.null ∨ r2.isSome = true) :
    Invariants (InsertNodeAtEnd m (some t)).2 ∧
    Invariants (InsertNodeAtBeginning m (some t)).2 ∧
    Invariants (InsertNodeAtPosition m position (some t) r2).2 := by
  have h1 : 1 ≤ m.NodeCount := h.1
  refine ⟨Invariants_after_InsertNodeAtEnd m t h1,
    Invariants_after_InsertNodeAtBeginning m t h1, ?_⟩
  by_cases hp0 : position = 0
  · subst hp0
    rw [InsertNodeAtPosition_first m t r2 h1] at hs ⊢
    rcases hs with hs | hs
    · exact absurd rfl hs
    · obtain ⟨t2, rfl⟩ := Option.isSome_iff_exists.mp hs
      exact Invariants_after_InsertNodeAtBeginning (counted m t) t2
        (by show 1 ≤ m.NodeCount + 1; omega)
  · by_cases hpn : position = m.NodeCount
    · subst hpn
      rw [InsertNodeAtPosition_last m t r2 (by omega)] at hs ⊢
      rcases hs with hs | hs
      · exact absurd rfl hs
      · obtain ⟨t2, rfl⟩ := Option.isSome_iff_exists.mp hs
        exact Invariants_after_InsertNodeAtEnd (counted m t) t2
          (by show 1 ≤ m.NodeCount + 1; omega)
    · rw [InsertNodeAtPosition_inside m position t r2 (by omega) (by omega)]
      exact Invariants_insertedInside m position t h

theorem insertion_keeps_invariants_witness :
    Invariants (InsertNodeAtEnd threeNodes (some ⟨200, staleNode⟩)).2 ∧
    Invariants (InsertNodeAtBeginning threeNodes (some ⟨200, staleNode⟩)).2 ∧
    Invariants (InsertNodeAtPosition threeNodes 1 (some ⟨200, staleNode⟩) none).2 :=
  insertion_keeps_invariants threeNodes (by decide) ⟨200, staleNode⟩ 1 (by decide) (by decide)
    none (Or.inl (by decide))

/-- Claim C5.  On a manager with `n ≥ 1` nodes, an `InsertNodeAtEnd` whose
`realloc` succeeds makes the count `n + 1` and returns the address of slot `n`,
which is the new `tail`; that node has position `n`, its `prev` is slot `n - 1`
(the old tail), its `next` is slot `0` (the head), and the `next` of slot
`n - 1` is the new node. -/
theorem InsertNodeAtEnd_appends (m : NodeManager) (n : Nat) (hN : m.NodeCount = n)
    (h1 : 1 ≤ n) (t : Realloc) :
    (InsertNodeAtEnd m (some t)).2.NodeCount = n + 1 ∧
    (InsertNodeAtEnd m (some t)).2.store.length = n + 1 ∧
    (InsertNodeAtEnd m (some t)).1 =
      NodePtr.elem (InsertNodeAtEnd m (some t)).2.NodeArray n ∧
    (InsertNodeAtEnd m (some t)).2.tail = (InsertNodeAtEnd m (some t)).1 ∧
    (InsertNodeAtEnd m (some t)).2.head =
      NodePtr.elem (InsertNodeAtEnd m (some t)).2.NodeArray 0 ∧
    ((InsertNodeAtEnd m (some t)).2.cell n).position = n ∧
    ((InsertNodeAtEnd m (some t)).2.cell n).prev =
      NodePtr.elem (InsertNodeAtEnd m (some t)).2.NodeArray (n - 1) ∧
    ((InsertNodeAtEnd m (some t)).2.cell n).next =
      NodePtr.elem (InsertNodeAtEnd m (some t)).2.NodeArray 0 ∧
    ((InsertNodeAtEnd m (some t)).2.cell (n - 1)).next =
      NodePtr.elem (InsertNodeAtEnd m (some t)).2.NodeArray n := by
  have hf := InsertNodeAtEnd_frame m t
  have hret : (InsertNodeAtEnd m (some t)).1 = (InsertNodeAtEnd m (some t)).2.tail := rfl
  have hA : (InsertNodeAtEnd m (some t)).2.NodeArray = t.addr := NodeArray_of_frame hf
  have hT : (InsertNodeAtEnd m (some t)).2.tail = NodePtr.elem t.addr (m.NodeCount + 1 - 1) :=
    tail_of_frame hf
  have hc : (m.NodeCount + 1).toNat = n + 1 := by omega
  have e1 : m.NodeCount + 1 - 1 = (n : Int) := by omega
  refine ⟨?_, ?_, ?_, ?_, ?_, ?_, ?_, ?_, ?_⟩
  · rw [NodeCount_of_frame hf]
    show m.NodeCount + 1 = n + 1
    omega
  · rw [length_of_frame hf]
    simp only [grown, length_resize]
    exact hc
  · rw [hret, hT, hA, e1]
  · rw [hret]
  · rw [head_of_frame hf, hA]
    rfl
  · rw [InsertNodeAtEnd_cell, if_pos (by omega)]
    rfl
  · rw [InsertNodeAtEnd_cell, if_pos (by omega), hA, prev_renumbered]
    have hne : ¬ n = 0 := by omega
    have he : (n : Int) = m.NodeCount + 1 - 1 := by omega
    simp only [relinked, if_neg hne, if_pos he]
  · rw [InsertNodeAtEnd_cell, if_pos (by omega), hA, next_renumbered]
    have hne : ¬ n = 0 := by omega
    have he : (n : Int) = m.NodeCount + 1 - 1 := by omega
    simp only [relinked, if_neg hne, if_pos he]
  · rw [InsertNodeAtEnd_cell, if_pos (by omega), hA, next_renumbered]
    by_cases h0 : n - 1 = 0
    · have hn1 : n = 1 := by omega
      subst hn1
      simp [relinked]
    · have he : ¬ ((n - 1 : Nat) : Int) = m.NodeCount + 1 - 1 := by omega
      simp only [relinked, if_neg h0, if_neg he]
      congr 1
      omega

theorem InsertNodeAtEnd_appends_witness :
    (InsertNodeAtEnd threeNodes (some ⟨200, staleNode⟩)).2.NodeCount = 4 ∧
    (InsertNodeAtEnd threeNodes (some ⟨200, staleNode⟩)).1 = NodePtr.elem 200 3 ∧
    ((InsertNodeAtEnd threeNodes (some ⟨200, staleNode⟩)).2.cell 3).prev =
      NodePtr.elem 200 2 :=
  have h := InsertNodeAtEnd_appends threeNodes 3 (by decide) (by decide) ⟨200, staleNode⟩
  ⟨h.1, h.2.2.1, h.2.2.2.2.2.2.1⟩

/-- Claim C6.  On a manager with `n ≥ 1` nodes, for every `i < n`: after a
successful `InsertNodeAtEnd` the payload reference at position `i` is the one
that was at `i`, and after a successful `InsertNodeAtBeginning` the payload
reference at position `i + 1` is the one that was at `i`. -/
theorem payload_follows_insertion_at_ends (m : NodeManager) (n : Nat)
    (hN : m.NodeCount = n) (hlen : m.store.length = n) (i : Nat) (hi : i < n) (t : Realloc) :
    ((InsertNodeAtEnd m (some t)).2.cell i).data = (m.cell i).data ∧
    ((InsertNodeAtBeginning m (some t)).2.cell (i + 1)).data = (m.cell i).data := by
  constructor
  · rw [InsertNodeAtEnd_cell, if_pos (by omega), if_pos (by omega), data_renumbered]
  · rw [InsertNodeAtBeginning_data, if_pos (by omega), cell_grown, if_pos (by omega),
      if_pos (by omega)]
    rfl

theorem payload_follows_insertion_at_ends_witness :
    ((InsertNodeAtEnd threeNodes (some ⟨200, staleNode⟩)).2.cell 2).data = some 12 ∧
    ((InsertNodeAtBeginning threeNodes (some ⟨200, staleNode⟩)).2.cell 3).data = some 12 :=
  payload_follows_insertion_at_ends threeNodes 3 (by decide) (by decide) 2 (by decide)
    ⟨200, staleNode⟩

/-- Claim C7, on an input where the code departs from it.  Even when `realloc`
hands out zeroed memory, the node that `InsertNodeAtBeginning` puts at position
`0` and the node that `InsertNodeAtPosition(m, 1)` puts at position `1` do not
have a null payload reference: each still holds the reference of the node that
was at that position, which the node one slot to the right now holds too. -/
theorem inserted_node_keeps_old_payload :
    (threeNodes.cell 0).data = some 10 ∧
    ((InsertNodeAtBeginning threeNodes (some ⟨200, zeroNode⟩)).2.cell 0).data = some 10 ∧
    ((InsertNodeAtBeginning threeNodes (some ⟨200, zeroNode⟩)).2.cell 1).data = some 10 ∧
    (threeNodes.cell 1).data = some 11 ∧
    (InsertNodeAtPosition threeNodes 1 (some ⟨200, zeroNode⟩) none).1 = NodePtr.elem 200 1 ∧
    ((InsertNodeAtPosition threeNodes 1 (some ⟨200, zeroNode⟩) none).2.cell 1).data = some 11 ∧
    ((InsertNodeAtPosition threeNodes 1 (some ⟨200, zeroNode⟩) none).2.cell 2).data = some 11 := by
  decide

/-- Claim C8, on inputs where the code departs from it.  With every `realloc`
succeeding, `InsertNodeAtPosition` at position `0` and at position `3` of a
list of three nodes returns a null pointer and leaves five nodes, not four. -/
theorem InsertNodeAtPosition_at_ends_returns_null :
    (InsertNodeAtPosition threeNodes 0 (some ⟨200, zeroNode⟩) (some ⟨300, zeroNode⟩)).1 =
      NodePtr.null ∧
    (InsertNodeAtPosition threeNodes 0 (some ⟨200, zeroNode⟩)
      (some ⟨300, zeroNode⟩)).2.NodeCount = 5 ∧
    (InsertNodeAtPosition threeNodes 0 (some ⟨200, zeroNode⟩)
      (some ⟨300, zeroNode⟩)).2.store.length = 5 ∧
    (InsertNodeAtPosition threeNodes 3 (some ⟨200, zeroNode⟩) (some ⟨300, zeroNode⟩)).1 =
      NodePtr.null ∧
    (InsertNodeAtPosition threeNodes 3 (some ⟨200, zeroNode⟩)
      (some ⟨300, zeroNode⟩)).2.NodeCount = 5 ∧
    (InsertNodeAtPosition threeNodes 3 (some ⟨200, zeroNode⟩)
      (some ⟨300, zeroNode⟩)).2.store.length = 5 := by
  decide

/-- Claim C9.  On a manager with `n` nodes and for a position `k` with
`0 < k < n`, an `InsertNodeAtPosition(m, k)` whose `realloc` succeeds makes the
count `n + 1`, returns the address of slot `k`, whose position is `k`, leaves
the payload reference at every position below `k` as it was, and moves the one
that was at every position `i` from `k` to `n - 1` to position `i + 1`. -/
theorem InsertNodeAtPosition_inside_shifts (m : NodeManager) (n k : Nat)
    (hN : m.NodeCount = n) (hlen : m.store.length = n) (hk0 : 0 < k) (hkn : k < n)
    (t : Realloc) (r2 : Option Realloc) :
    (InsertNodeAtPosition m k (some t) r2).2.NodeCount = n + 1 ∧
    (InsertNodeAtPosition m k (some t) r2).2.store.length = n + 1 ∧
    (InsertNodeAtPosition m k (some t) r2).1 =
      NodePtr.elem (InsertNodeAtPosition m k (some t) r2).2.NodeArray k ∧
    ((InsertNodeAtPosition m k (some t) r2).2.cell k).position = k ∧
    (∀ i, i < k →
      ((InsertNodeAtPosition m k (some t) r2).2.cell i).data = (m.cell i).data) ∧
    (∀ i, k ≤ i → i < n →
      ((InsertNodeAtPosition m k (some t) r2).2.cell (i + 1)).data = (m.cell i).data) := by
  rw [InsertNodeAtPosition_inside m k t r2 (by omega) (by omega)]
  have hf := frame_insertedInside m k t
  have hc : (m.NodeCount + 1).toNat = n + 1 := by omega
  have hk : ((k : Int)).toNat = k := Int.toNat_natCast k
  refine ⟨?_, ?_, ?_, ?_, ?_, ?_⟩
  · rw [NodeCount_of_frame hf]
    show m.NodeCount + 1 = n + 1
    omega
  · rw [length_of_frame hf]
    simp only [grown, length_resize]
    exact hc
  · rw [NodeArray_of_frame hf]
    rfl
  · show ((insertedInside m k t).cell k).position = k
    rw [insertedInside_cell m k t k (by omega)]
    have hne : ¬ k = 0 := by omega
    simp only [relinkedAtPosition, if_neg hne, position_renumbered]
  · intro i hi
    show ((insertedInside m k t).cell i).data = (m.cell i).data
    rw [insertedInside_data, hk, if_neg (by omega), cell_grown, if_pos (by omega),
      if_pos (by omega)]
  · intro i hi1 hi2
    show ((insertedInside m k t).cell (i + 1)).data = (m.cell i).data
    rw [insertedInside_data, hk, if_pos (by omega), cell_grown, if_pos (by omega),
      if_pos (by omega)]
    rfl

theorem InsertNodeAtPosition_inside_shifts_witness :
    (InsertNodeAtPosition threeNodes 1 (some ⟨200, staleNode⟩) none).2.NodeCount = 4 ∧
    (InsertNodeAtPosition threeNodes 1 (some ⟨200, staleNode⟩) none).1 = NodePtr.elem 200 1 ∧
    ((InsertNodeAtPosition threeNodes 1 (some ⟨200, staleNode⟩) none).2.cell 0).data =
      some 10 ∧
    ((InsertNodeAtPosition threeNodes 1 (some ⟨200, staleNode⟩) none).2.cell 3).data =
      some 12 :=
  have h := InsertNodeAtPosition_inside_shifts threeNodes 3 1 (by decide) (by decide)
    (by decide) (by decide) ⟨200, staleNode⟩ none
  ⟨h.1, h.2.2.1, h.2.2.2.2.1 0 (by decide), h.2.2.2.2.2 2 (by decide) (by decide)⟩

/-- Claim C10.  `InsertNodeAtPosition` at a negative position or at a position
above the count returns a null pointer and leaves the manager as it was,
whatever the allocator would have done. -/
theorem InsertNodeAtPosition_out_of_range (m : NodeManager) (position : Int)
    (r r2 : Option Realloc) (h : position < 0 ∨ position > m.NodeCount) :
    InsertNodeAtPosition m position r r2 = (NodePtr.null, m) := by
  unfold InsertNodeAtPosition
  rw [if_pos h]

theorem InsertNodeAtPosition_out_of_range_witness :
    InsertNodeAtPosition threeNodes 4 (some ⟨200, staleNode⟩) (some ⟨300, staleNode⟩) =
      (NodePtr.null, threeNodes) ∧
    InsertNodeAtPosition threeNodes (-1) (some ⟨200, staleNode⟩) (some ⟨300, staleNode⟩) =
      (NodePtr.null, threeNodes) :=
  ⟨InsertNodeAtPosition_out_of_range threeNodes 4 _ _ (Or.inr (by decide)),
   InsertNodeAtPosition_out_of_range threeNodes (-1) _ _ (Or.inl (by decide))⟩

/-! ## Deletion at the ends -/

/-- Claim C4, on inputs where the code departs from it.  Deleting from the
two-node list that `CreateList(2, "L")` builds, with the block staying where it
is, leaves one node whose `next` is the address one past the end of the block
and a `tail` that is still the address of the slot given up; and
`DeleteNodeAtEnd` on a three-node list whose block moves from address `100` to
`200` leaves `head` at the old address. -/
theorem deletion_at_ends_breaks_invariants :
    (CreateList 2 ['L'] true (some 100)).map (fun m => DeleteNodeAtEnd m (some ⟨100, zeroNode⟩)) =
      some (true, ⟨['L'], 1, NodePtr.elem 100 0, NodePtr.elem 100 1, 100,
        [⟨none, 0, NodePtr.elem 100 1, NodePtr.elem 100 0⟩]⟩) ∧
    (CreateList 2 ['L'] true (some 100)).map
        (fun m => DeleteNodeAtBeginning m (some ⟨100, zeroNode⟩)) =
      some (true, ⟨['L'], 1, NodePtr.elem 100 0, NodePtr.elem 100 1, 100,
        [⟨none, 0, NodePtr.elem 100 1, NodePtr.elem 100 0⟩]⟩) ∧
    DeleteNodeAtEnd threeNodes (some ⟨200, zeroNode⟩) =
      (true, ⟨['L'], 2, NodePtr.elem 100 0, NodePtr.elem 200 1, 200,
        [⟨some 10, 0, NodePtr.elem 200 1, NodePtr.elem 200 1⟩,
         ⟨some 11, 1, NodePtr.elem 200 0, NodePtr.elem 200 0⟩]⟩) ∧
    ¬ Invariants (DeleteNodeAtEnd threeNodes (some ⟨200, zeroNode⟩)).2 := by
  decide

/-! ## Payload access -/

theorem cell_setData (m : NodeManager) (i j : Nat) (d : Option Nat) :
    (m.setData i d).cell j =
      if j = i ∧ i < m.store.length then { m.cell i with data := d } else m.cell j := by
  rw [NodeManager.setData_eq, NodeManager.cell_modify]

/-- Claim C17.  On a manager with `n` nodes, for a position `p < n` and a
payload reference that is not null, `SetNodeData` returns true and leaves that
reference in the node at `p`; the count, the label, `head`, `tail`, the block's
address and size, every other node, and the position and links of the node at
`p` are as before. -/
theorem SetNodeData_stores (m : NodeManager) (n p : Nat) (hN : m.NodeCount = n)
    (hlen : m.store.length = n) (hp : p < n) (a : Nat) :
    (SetNodeData m p (some a)).1 = true ∧
    ((SetNodeData m p (some a)).2.cell p).data = some a ∧
    (SetNodeData m p (some a)).2.NodeCount = m.NodeCount ∧
    (SetNodeData m p (some a)).2.ListID = m.ListID ∧
    (SetNodeData m p (some a)).2.head = m.head ∧
    (SetNodeData m p (some a)).2.tail = m.tail ∧
    (SetNodeData m p (some a)).2.NodeArray = m.NodeArray ∧
    (SetNodeData m p (some a)).2.store.length = m.store.length ∧
    (∀ j, j ≠ p → (SetNodeData m p (some a)).2.cell j = m.cell j) ∧
    ((SetNodeData m p (some a)).2.cell p).position = (m.cell p).position ∧
    ((SetNodeData m p (some a)).2.cell p).next = (m.cell p).next ∧
    ((SetNodeData m p (some a)).2.cell p).prev = (m.cell p).prev := by
  have hg : ¬ ((p : Int) > m.NodeCount - 1 ∨ (p : Int) < 0) := by omega
  have e : SetNodeData m p (some a) = (true, m.setData p (some a)) := by
    simp [SetNodeData, hg]
  have hc : (m.setData p (some a)).cell p = { m.cell p with data := some a } := by
    rw [cell_setData, if_pos ⟨rfl, by omega⟩]
  rw [e]
  refine ⟨rfl, ?_, rfl, rfl, rfl, rfl, rfl, ?_, ?_, ?_, ?_, ?_⟩
  · show ((m.setData p (some a)).cell p).data = some a
    rw [hc]
  · show (m.setData p (some a)).store.length = m.store.length
    simp [NodeManager.setData]
  · intro j hj
    show (m.setData p (some a)).cell j = m.cell j
    rw [cell_setData, if_neg (fun h => hj h.1)]
  · show ((m.setData p (some a)).cell p).position = (m.cell p).position
    rw [hc]
  · show ((m.setData p (some a)).cell p).next = (m.cell p).next
    rw [hc]
  · show ((m.setData p (some a)).cell p).prev = (m.cell p).prev
    rw [hc]

theorem SetNodeData_stores_witness :
    (SetNodeData threeNodes 1 (some 55)).1 = true ∧
    ((SetNodeData threeNodes 1 (some 55)).2.cell 1).data = some 55 ∧
    (SetNodeData threeNodes 1 (some 55)).2.cell 2 = threeNodes.cell 2 :=
  have h := SetNodeData_stores threeNodes 3 1 (by decide) (by decide) (by decide) 55
  ⟨h.1, h.2.1, h.2.2.2.2.2.2.2.2.1 2 (by decide)⟩

/-- Claim C18.  At a position below `0` or not below the count, `SetNodeData`
(whatever the payload reference) and `EmptyNodeData` return false and leave the
manager as it was. -/
theorem payload_access_out_of_range (m : NodeManager) (position : Int) (data : Option Nat)
    (h : position < 0 ∨ position ≥ m.NodeCount) :
    SetNodeData m position data = (false, m) ∧ EmptyNodeData m position = (false, m) := by
  have hg : position > m.NodeCount - 1 ∨ position < 0 := by omega
  constructor
  · unfold SetNodeData
    rw [if_pos hg]
  · unfold EmptyNodeData
    rw [if_pos hg]

theorem payload_access_out_of_range_witness :
    (SetNodeData threeNodes 3 (some 55) = (false, threeNodes) ∧
      EmptyNodeData threeNodes 3 = (false, threeNodes)) ∧
    (SetNodeData threeNodes (-1) none = (false, threeNodes) ∧
      EmptyNodeData threeNodes (-1) = (false, threeNodes)) :=
  ⟨payload_access_out_of_range threeNodes 3 (some 55) (Or.inr (by decide)),
   payload_access_out_of_range threeNodes (-1) none (Or.inl (by decide))⟩

/-- Claim C19.  On a manager with `n` nodes and for a position `p < n`,
`SetNodeData` with a null payload reference returns false and `EmptyNodeData`
returns true, and both leave the same manager: the node at `p` has a null
payload reference and its position and links as before, every other node, the
count, the label, `head`, `tail` and the block's address and size are as
before. -/
theorem SetNodeData_null_is_EmptyNodeData (m : NodeManager) (n p : Nat)
    (hN : m.NodeCount = n) (hlen : m.store.length = n) (hp : p < n) :
    (SetNodeData m p none).1 = false ∧
    (EmptyNodeData m p).1 = true ∧
    (SetNodeData m p none).2 = (EmptyNodeData m p).2 ∧
    ((EmptyNodeData m p).2.cell p).data = none ∧
    ((EmptyNodeData m p).2.cell p).position = (m.cell p).position ∧
    ((EmptyNodeData m p).2.cell p).next = (m.cell p).next ∧
    ((EmptyNodeData m p).2.cell p).prev = (m.cell p).prev ∧
    (∀ j, j ≠ p → (EmptyNodeData m p).2.cell j = m.cell j) ∧
    (EmptyNodeData m p).2.NodeCount = m.NodeCount ∧
    (EmptyNodeData m p).2.ListID = m.ListID ∧
    (EmptyNodeData m p).2.head = m.head ∧
    (EmptyNodeData m p).2.tail = m.tail ∧
    (EmptyNodeData m p).2.NodeArray = m.NodeArray ∧
    (EmptyNodeData m p).2.store.length = m.store.length := by
  have hg : ¬ ((p : Int) > m.NodeCount - 1 ∨ (p : Int) < 0) := by omega
  have e1 : SetNodeData m p none = (false, m.setData p none) := by
    simp [SetNodeData, hg]
  have e2 : EmptyNodeData m p = (true, m.setData p none) := by
    simp [EmptyNodeData, hg]
  have hc : (m.setData p none).cell p = { m.cell p with data := none } := by
    rw [cell_setData, if_pos ⟨rfl, by omega⟩]
  rw [e1, e2]
  refine ⟨rfl, rfl, rfl, ?_, ?_, ?_, ?_, ?_, rfl, rfl, rfl, rfl, rfl, ?_⟩
  · show ((m.setData p none).cell p).data = none
    rw [hc]
  · show ((m.setData p none).cell p).position = (m.cell p).position
    rw [hc]
  · show ((m.setData p none).cell p).next = (m.cell p).next
    rw [hc]
  · show ((m.setData p none).cell p).prev = (m.cell p).prev
    rw [hc]
  · intro j hj
    show (m.setData p none).cell j = m.cell j
    rw [cell_setData, if_neg (fun h => hj h.1)]
  · show (m.setData p none).store.length = m.store.length
    simp [NodeManager.setData]

theorem SetNodeData_null_is_EmptyNodeData_witness :
    (SetNodeData threeNodes 1 none).1 = false ∧
    (EmptyNodeData threeNodes 1).1 = true ∧
    (SetNodeData threeNodes 1 none).2 = (EmptyNodeData threeNodes 1).2 ∧
    ((EmptyNodeData threeNodes 1).2.cell 1).data = none :=
  have h := SetNodeData_null_is_EmptyNodeData threeNodes 3 1 (by decide) (by decide)
    (by decide)
  ⟨h.1, h.2.1, h.2.2.1, h.2.2.2.1⟩

/-! ## Failure of the allocator -/

/-- Claim C16.  When its `realloc` fails, `InsertNodeAtEnd` returns a null
pointer and leaves the manager as it was, and so does
`InsertNodeAtBeginning`. -/
theorem insertion_at_ends_failure_atomic (m : NodeManager) :
    InsertNodeAtEnd m none = (NodePtr.null, m) ∧
    InsertNodeAtBeginning m none = (NodePtr.null, m) :=
  ⟨rfl, rfl⟩

/-- Claim C15, on inputs where the code departs from it.  With `realloc`
failing, `DeleteNodeAtEnd` on the three-node sample returns false but has
already taken one off `NodeCount`, and `DeleteNodeAtBeginning` returns false
having also moved the nodes one slot to the left, so that the head's payload
`10` is gone and the block ends with two copies of the last node. -/
theorem deletion_at_ends_failure_not_atomic :
    DeleteNodeAtEnd threeNodes none = (false, { threeNodes with NodeCount := 2 }) ∧
    (DeleteNodeAtEnd threeNodes none).2 ≠ threeNodes ∧
    DeleteNodeAtBeginning threeNodes none =
      (false, ⟨['L'], 2, NodePtr.elem 100 0, NodePtr.elem 100 2, 100,
        [⟨some 11, 0, NodePtr.elem 100 2, NodePtr.elem 100 0⟩,
         ⟨some 12, 1, NodePtr.elem 100 0, NodePtr.elem 100 1⟩,
         ⟨some 12, 2, NodePtr.elem 100 0, NodePtr.elem 100 1⟩]⟩) ∧
    (DeleteNodeAtBeginning threeNodes none).2 ≠ threeNodes := by
  decide

/-! ## Deletion at a position -/

/-- Claim C14, on inputs where the code departs from it.  At the positions `3`
and `-1` of the three-node sample, which are out of range,
`DeleteNodeAtPosition` returns false and leaves the nodes, the links, `head`
and `tail` as they were, but `NodeCount` is `2`, not `3`, whatever the
allocator would have done. -/
theorem DeleteNodeAtPosition_out_of_range_loses_count (r r2 : Option Realloc) :
    DeleteNodeAtPosition threeNodes 3 r r2 = (false, { threeNodes with NodeCount := 2 }) ∧
    DeleteNodeAtPosition threeNodes (-1) r r2 = (false, { threeNodes with NodeCount := 2 }) ∧
    ({ threeNodes with NodeCount := 2 } : NodeManager) ≠ threeNodes :=
  ⟨rfl, rfl, by decide⟩

/-- Claim C13, on inputs where the code departs from it.  With every `realloc`
succeeding, `DeleteNodeAtPosition` at position `0` and at position `1` of the
three-node sample returns false and leaves one node, not two: at position `0`
the payloads `10` and `12` are both gone, at position `1` the payloads `11` and
`12`.  At position `2` it returns true and removes the last node alone. -/
theorem DeleteNodeAtPosition_removes_two :
    (DeleteNodeAtPosition threeNodes 0 (some ⟨200, zeroNode⟩) (some ⟨300, zeroNode⟩)).1 =
      false ∧
    (DeleteNodeAtPosition threeNodes 0 (some ⟨200, zeroNode⟩)
      (some ⟨300, zeroNode⟩)).2.NodeCount = 1 ∧
    (DeleteNodeAtPosition threeNodes 0 (some ⟨200, zeroNode⟩)
      (some ⟨300, zeroNode⟩)).2.store.map Node.data = [some 11] ∧
    (DeleteNodeAtPosition threeNodes 1 (some ⟨200, zeroNode⟩) (some ⟨300, zeroNode⟩)).1 =
      false ∧
    (DeleteNodeAtPosition threeNodes 1 (some ⟨200, zeroNode⟩)
      (some ⟨300, zeroNode⟩)).2.NodeCount = 1 ∧
    (DeleteNodeAtPosition threeNodes 1 (some ⟨200, zeroNode⟩)
      (some ⟨300, zeroNode⟩)).2.store.map Node.data = [some 10] ∧
    (DeleteNodeAtPosition threeNodes 2 (some ⟨200, zeroNode⟩) (some ⟨300, zeroNode⟩)).1 =
      true ∧
    (DeleteNodeAtPosition threeNodes 2 (some ⟨200, zeroNode⟩)
      (some ⟨300, zeroNode⟩)).2.store.map Node.data = [some 10, some 11] := by
  decide

/-! ## Deleting the only node -/

/-- The sample one-node list is what the library builds. -/
theorem oneNode_built : CreateList 1 ['L'] true (some 100) = some oneNode := by
  decide

/-- Claim C11 fails as stated.  `DeleteNodeAtEnd` on the one-node list is not
rejected: when the `realloc` to no slots succeeds it returns true, and the
count is `0` afterwards whether it succeeds or not. -/
theorem DeleteNodeAtEnd_single_not_rejected :
    (DeleteNodeAtEnd oneNode (some ⟨100, zeroNode⟩)).1 = true ∧
    (DeleteNodeAtEnd oneNode (some ⟨100, zeroNode⟩)).2.NodeCount = 0 ∧
    (DeleteNodeAtEnd oneNode (some ⟨100, zeroNode⟩)).2.store = [] ∧
    (DeleteNodeAtEnd oneNode none).2.NodeCount = 0 ∧
    ¬ ((DeleteNodeAtEnd oneNode (some ⟨100, zeroNode⟩)).1 = false ∧
       (DeleteNodeAtEnd oneNode (some ⟨100, zeroNode⟩)).2 = oneNode) ∧
    ¬ ((DeleteNodeAtEnd oneNode none).1 = false ∧
       (DeleteNodeAtEnd oneNode none).2 = oneNode) := by
  decide

/-- Claim C11, amended.  `DeleteNodeAtEnd` on a manager with exactly one node
is not rejected: when its `realloc` succeeds it returns true and leaves a
manager with count `0` and a block of no slots at the address `realloc` gave;
the label, `head` and `tail` are not touched. -/
theorem DeleteNodeAtEnd_single (m : NodeManager) (h : m.NodeCount = 1) (t : Realloc) :
    DeleteNodeAtEnd m (some t) =
      (true, { m with NodeCount := 0, NodeArray := t.addr, store := [] }) := by
  simp [DeleteNodeAtEnd, h, forDown, resize]

theorem DeleteNodeAtEnd_single_witness :
    DeleteNodeAtEnd oneNode (some ⟨200, staleNode⟩) =
      (true, { oneNode with NodeCount := 0, NodeArray := 200, store := [] }) :=
  DeleteNodeAtEnd_single oneNode (by decide) ⟨200, staleNode⟩

/-! ## Loops that shift slots to the left -/

/-- An ascending loop whose round `i` copies the payload of slot `i + 1` into
slot `i` moves the payloads of its range one slot to the left. -/
theorem forUp_shift_data (body : Nat → NodeManager → NodeManager)
    (hlen : ∀ i m, (body i m).store.length = m.store.length)
    (hdata : ∀ i m j, ((body i m).cell j).data =
      if j = i ∧ i < m.store.length then (m.cell (i + 1)).data else (m.cell j).data) :
    ∀ (lo k : Nat) (m : NodeManager) (j : Nat),
      ((forUp body lo k m).cell j).data =
        if lo ≤ j ∧ j < lo + k ∧ j < m.store.length then (m.cell (j + 1)).data
        else (m.cell j).data
  | lo, 0, m, j => by
    have h : ¬ (lo ≤ j ∧ j < lo + 0 ∧ j < m.store.length) := by omega
    rw [forUp, if_neg h]
  | lo, k + 1, m, j => by
    rw [forUp, forUp_shift_data body hlen hdata (lo + 1) k, hlen, hdata, hdata]
    by_cases h1 : j = lo
    · subst h1
      have h3 : ¬ (j + 1 ≤ j ∧ j < j + 1 + k ∧ j < m.store.length) := by omega
      by_cases h2 : j < m.store.length
      · have h4 : j ≤ j ∧ j < j + (k + 1) ∧ j < m.store.length := by omega
        simp [h2, h3, h4]
      · have h4 : ¬ (j ≤ j ∧ j < j + (k + 1) ∧ j < m.store.length) := by omega
        simp [h2, h3, h4]
    · by_cases h2 : lo + 1 ≤ j ∧ j < lo + 1 + k ∧ j < m.store.length
      · have h3 : lo ≤ j ∧ j < lo + (k + 1) ∧ j < m.store.length := by omega
        have h4 : ¬ (j + 1 = lo ∧ lo < m.store.length) := by omega
        simp [h1, h2, h3, h4]
      · have h3 : ¬ (lo ≤ j ∧ j < lo + (k + 1) ∧ j < m.store.length) := by omega
        simp [h1, h2, h3]

/-- The last round of a descending loop is the round of its lowest index. -/
theorem forDown_last {σ : Type} (body : Nat → σ → σ) (lo : Nat) :
    ∀ (k : Nat) (s : σ), forDown body lo (k + 1) s = body lo (forDown body (lo + 1) k s)
  | 0, s => by simp [forDown]
  | k + 1, s => by
    rw [forDown, forDown_last body lo k, forDown]
    have e : lo + (k + 1) = lo + 1 + k := by omega
    rw [e]

theorem cell_of_store {s s2 : NodeManager} (h : s.store = s2.store) (j : Nat) :
    s.cell j = s2.cell j := by
  unfold NodeManager.cell
  rw [h]

/-- Two managers with the same fields and the same slots are the same. -/
theorem NodeManager.ext_cells {s s2 : NodeManager} (hf : s.frame = s2.frame)
    (hc : ∀ j, j < s.store.length → s.cell j = s2.cell j) : s = s2 := by
  have hl := length_of_frame hf
  have hs : s.store = s2.store := by
    apply List.ext_getElem hl
    intro j h1 h2
    have := hc j h1
    simp only [NodeManager.cell] at this
    rwa [List.getD_eq_getElem _ _ h1, List.getD_eq_getElem _ _ h2] at this
  cases s
  cases s2
  simp only [NodeManager.frame, Prod.mk.injEq] at hf
  simp only [NodeManager.mk.injEq]
  exact ⟨hf.1, hf.2.1, hf.2.2.1, hf.2.2.2.1, hf.2.2.2.2.1, hs⟩

/-! ## The rounds of the deletion loops -/

theorem DeleteNodeAtBeginning_shift_round_frame (i : Nat) (m : NodeManager) :
    (DeleteNodeAtBeginning.shift i m).frame = m.frame := by
  simp [DeleteNodeAtBeginning.shift, NodeManager.setPosition_eq]

theorem DeleteNodeAtBeginning_shift_round_cell (i : Nat) (m : NodeManager) (j : Nat) :
    (DeleteNodeAtBeginning.shift i m).cell j =
      if j = i ∧ i < m.store.length then { m.cell (i + 1) with position := i }
      else m.cell j := by
  simp only [DeleteNodeAtBeginning.shift, NodeManager.setPosition_eq,
    NodeManager.cell_setCell, NodeManager.cell_modify, NodeManager.length_setCell]
  by_cases h1 : j = i ∧ i < m.store.length
  · obtain ⟨rfl, h2⟩ := h1
    simp [h2]
  · simp only [if_neg h1]

theorem DeleteNodeAtBeginning_shift_round_data (i : Nat) (m : NodeManager) (j : Nat) :
    ((DeleteNodeAtBeginning.shift i m).cell j).data =
      if j = i ∧ i < m.store.length then (m.cell (i + 1)).data else (m.cell j).data := by
  rw [DeleteNodeAtBeginning_shift_round_cell]
  split_ifs <;> rfl

theorem DeleteNodeAtPosition_shift_round_frame (i : Nat) (m : NodeManager) :
    (DeleteNodeAtPosition.shift i m).frame = m.frame := by
  simp [DeleteNodeAtPosition.shift, NodeManager.setPosition_eq]

theorem DeleteNodeAtPosition_shift_round_cell (i : Nat) (m : NodeManager) (j : Nat) :
    (DeleteNodeAtPosition.shift i m).cell j =
      if j = i ∧ i < m.store.length then { m.cell (i + 1) with position := i }
      else m.cell j := by
  simp only [DeleteNodeAtPosition.shift, NodeManager.setPosition_eq,
    NodeManager.cell_setCell, NodeManager.cell_modify, NodeManager.length_setCell]
  by_cases h1 : j = i ∧ i < m.store.length
  · obtain ⟨rfl, h2⟩ := h1
    simp [h2]
  · simp only [if_neg h1]

theorem DeleteNodeAtPosition_shift_round_data (i : Nat) (m : NodeManager) (j : Nat) :
    ((DeleteNodeAtPosition.shift i m).cell j).data =
      if j = i ∧ i < m.store.length then (m.cell (i + 1)).data else (m.cell j).data := by
  rw [DeleteNodeAtPosition_shift_round_cell]
  split_ifs <;> rfl

theorem DeleteNodeAtEnd_relink_round_store (c : Int) (b i : Nat) (m : NodeManager) :
    (DeleteNodeAtEnd.relink c b i m).store =
      (m.modify i (relinkedAtPosition c b i)).store := by
  unfold DeleteNodeAtEnd.relink
  split_ifs with h0 h1 <;>
    simp only [NodeManager.setPosition_eq, NodeManager.setNext_eq, NodeManager.setPrev_eq,
      NodeManager.modify_modify] <;>
    congr 2 <;> funext x <;> simp [relinkedAtPosition, renumbered, relinked, *]

theorem DeleteNodeAtBeginning_relink_round_store (c : Int) (b i : Nat) (m : NodeManager) :
    (DeleteNodeAtBeginning.relink c b i m).store =
      (m.modify i (renumbered c b i)).store := by
  unfold DeleteNodeAtBeginning.relink
  split_ifs with h0 h1 <;>
    simp only [NodeManager.setPosition_eq, NodeManager.setNext_eq, NodeManager.setPrev_eq,
      NodeManager.modify_modify] <;>
    congr 2 <;> funext x <;> simp [renumbered, relinked, *]

theorem DeleteNodeAtPosition_relink_round_store (c : Int) (b i : Nat) (m : NodeManager) :
    (DeleteNodeAtPosition.relink c b i m).store =
      (m.modify i (renumbered c b i)).store := by
  unfold DeleteNodeAtPosition.relink
  split_ifs with h0 h1 <;>
    simp only [NodeManager.setPosition_eq, NodeManager.setNext_eq, NodeManager.setPrev_eq,
      NodeManager.modify_modify] <;>
    congr 2 <;> funext x <;> simp [renumbered, relinked, *]

theorem DeleteNodeAtEnd_relink_round_core (c : Int) (b i : Nat) (m : NodeManager) :
    (DeleteNodeAtEnd.relink c b i m).core = m.core := by
  have hs := congrArg List.length (DeleteNodeAtEnd_relink_round_store c b i m)
  rw [NodeManager.length_modify] at hs
  unfold NodeManager.core
  rw [hs]
  unfold DeleteNodeAtEnd.relink
  split_ifs <;> rfl

theorem DeleteNodeAtBeginning_relink_round_core (c : Int) (b i : Nat) (m : NodeManager) :
    (DeleteNodeAtBeginning.relink c b i m).core = m.core := by
  have hs := congrArg List.length (DeleteNodeAtBeginning_relink_round_store c b i m)
  rw [NodeManager.length_modify] at hs
  unfold NodeManager.core
  rw [hs]
  unfold DeleteNodeAtBeginning.relink
  split_ifs <;> rfl

theorem DeleteNodeAtPosition_relink_round_core (c : Int) (b i : Nat) (m : NodeManager) :
    (DeleteNodeAtPosition.relink c b i m).core = m.core := by
  have hs := congrArg List.length (DeleteNodeAtPosition_relink_round_store c b i m)
  rw [NodeManager.length_modify] at hs
  unfold NodeManager.core
  rw [hs]
  unfold DeleteNodeAtPosition.relink
  split_ifs <;> rfl

theorem length_of_core {s s2 : NodeManager} (h : s.core = s2.core) :
    s.store.length = s2.store.length := by
  simp only [NodeManager.core, Prod.mk.injEq] at h
  exact h.2.2.2

theorem NodeCount_of_core {s s2 : NodeManager} (h : s.core = s2.core) :
    s.NodeCount = s2.NodeCount := by
  simp only [NodeManager.core, Prod.mk.injEq] at h
  exact h.2.1

theorem NodeArray_of_core {s s2 : NodeManager} (h : s.core = s2.core) :
    s.NodeArray = s2.NodeArray := by
  simp only [NodeManager.core, Prod.mk.injEq] at h
  exact h.2.2.1

theorem ListID_of_core {s s2 : NodeManager} (h : s.core = s2.core) :
    s.ListID = s2.ListID := by
  simp only [NodeManager.core, Prod.mk.injEq] at h
  exact h.1

theorem core_of_frame {s s2 : NodeManager} (h : s.frame = s2.frame) : s.core = s2.core := by
  simp only [NodeManager.frame, Prod.mk.injEq] at h
  simp only [NodeManager.core, Prod.mk.injEq]
  exact ⟨h.1, h.2.1, h.2.2.2.2.1, h.2.2.2.2.2⟩

/-! ## The deletions, in closed form -/

/-- A descending loop whose round `i` leaves the block that rewriting slot `i`
leaves rewrites every slot of its range. -/
theorem forDown_cell_of_store (body : Nat → NodeManager → NodeManager)
    (g : Nat → Node → Node)
    (hstore : ∀ i m, (body i m).store = (NodeManager.modify i (g i) m).store)
    (lo k : Nat) (m : NodeManager) (j : Nat) :
    (forDown body lo k m).cell j =
      if lo ≤ j ∧ j < lo + k ∧ j < m.store.length then g j (m.cell j) else m.cell j :=
  forDown_cell body g
    (fun i s => by rw [hstore, NodeManager.length_modify])
    (fun i s j => by rw [cell_of_store (hstore i s), NodeManager.cell_modify]) lo k m j

theorem cell_shrunk (s : NodeManager) (c : Int) (t : Realloc) (j : Nat) :
    (shrunk s c t).cell j =
      if j < c.toNat then (if j < s.store.length then s.cell j else t.fresh)
      else zeroNode := by
  simp only [NodeManager.cell, shrunk, getD_resize]

theorem length_shrunk (s : NodeManager) (c : Int) (t : Realloc) :
    (shrunk s c t).store.length = c.toNat := by
  simp [shrunk]

theorem core_shrunk (s : NodeManager) (c : Int) (t : Realloc) :
    (shrunk s c t).core = (s.ListID, s.NodeCount, t.addr, c.toNat) := by
  simp [NodeManager.core, shrunk]

theorem DeleteNodeAtEnd_eq (m : NodeManager) (t : Realloc) :
    DeleteNodeAtEnd m (some t) =
      (true, forDown (DeleteNodeAtEnd.relink (m.NodeCount - 1) t.addr) 0
        (m.NodeCount - 1).toNat (shrunk (decremented m) (m.NodeCount - 1) t)) :=
  rfl

theorem DeleteNodeAtEnd_core (m : NodeManager) (t : Realloc) :
    (DeleteNodeAtEnd m (some t)).2.core =
      (m.ListID, m.NodeCount - 1, t.addr, (m.NodeCount - 1).toNat) := by
  rw [DeleteNodeAtEnd_eq]
  exact forDown_keeps _
    (fun s => s.core = (m.ListID, m.NodeCount - 1, t.addr, (m.NodeCount - 1).toNat))
    (fun i s h => (DeleteNodeAtEnd_relink_round_core _ _ i s).trans h) 0 _ _
    (core_shrunk (decremented m) (m.NodeCount - 1) t)

theorem DeleteNodeAtEnd_cell (m : NodeManager) (t : Realloc) (j : Nat)
    (hj : j < (m.NodeCount - 1).toNat) :
    (DeleteNodeAtEnd m (some t)).2.cell j =
      relinkedAtPosition (m.NodeCount - 1) t.addr j
        (if j < m.store.length then m.cell j else t.fresh) := by
  rw [DeleteNodeAtEnd_eq]
  show NodeManager.cell (forDown _ 0 _ _) j = _
  rw [forDown_cell_of_store _ _ (DeleteNodeAtEnd_relink_round_store _ _),
    length_shrunk, if_pos (by omega),
    cell_shrunk, if_pos hj]
  rfl

theorem DeleteNodeAtBeginning_eq (m : NodeManager) (t : Realloc) :
    DeleteNodeAtBeginning m (some t) =
      (true, forDown (DeleteNodeAtBeginning.relink (m.NodeCount - 1) t.addr) 0
        (m.NodeCount - 1).toNat
        (shrunk (forUp DeleteNodeAtBeginning.shift 0 (m.NodeCount - 1).toNat (decremented m))
          (m.NodeCount - 1) t)) :=
  rfl

theorem DeleteNodeAtBeginning_shift_frame (m : NodeManager) (lo k : Nat) :
    (forUp DeleteNodeAtBeginning.shift lo k m).frame = m.frame :=
  forUp_keeps _ (fun s => s.frame = m.frame)
    (fun i s h => (DeleteNodeAtBeginning_shift_round_frame i s).trans h) lo k m rfl

theorem DeleteNodeAtBeginning_core (m : NodeManager) (t : Realloc) :
    (DeleteNodeAtBeginning m (some t)).2.core =
      (m.ListID, m.NodeCount - 1, t.addr, (m.NodeCount - 1).toNat) := by
  rw [DeleteNodeAtBeginning_eq]
  have hf := core_of_frame (DeleteNodeAtBeginning_shift_frame (decremented m) 0
    (m.NodeCount - 1).toNat)
  refine forDown_keeps _
    (fun s => s.core = (m.ListID, m.NodeCount - 1, t.addr, (m.NodeCount - 1).toNat))
    (fun i s h => (DeleteNodeAtBeginning_relink_round_core _ _ i s).trans h) 0 _ _ ?_
  show (shrunk _ _ _).core = _
  rw [core_shrunk, ListID_of_core hf, NodeCount_of_core hf]
  rfl

theorem DeleteNodeAtBeginning_cell (m : NodeManager) (t : Realloc) (j : Nat)
    (hj : j < (m.NodeCount - 1).toNat) (hl : j < m.store.length) :
    (DeleteNodeAtBeginning m (some t)).2.cell j =
      renumbered (m.NodeCount - 1) t.addr j
        ((forUp DeleteNodeAtBeginning.shift 0 (m.NodeCount - 1).toNat (decremented m)).cell
          j) := by
  have hf := DeleteNodeAtBeginning_shift_frame (decremented m) 0 (m.NodeCount - 1).toNat
  have hlen : (forUp DeleteNodeAtBeginning.shift 0 (m.NodeCount - 1).toNat
      (decremented m)).store.length = m.store.length := (length_of_frame hf).trans rfl
  rw [DeleteNodeAtBeginning_eq]
  show NodeManager.cell (forDown _ 0 _ _) j = _
  rw [forDown_cell_of_store _ _ (DeleteNodeAtBeginning_relink_round_store _ _),
    length_shrunk, if_pos (by omega),
    cell_shrunk, if_pos hj, hlen, if_pos hl]

/-! ## Payloads across deletion at the ends -/

/-- Claim C12.  On a manager with `n ≥ 2` nodes, a `DeleteNodeAtEnd` whose
`realloc` succeeds returns true, makes the count `n - 1` and leaves the payload
reference at every position below `n - 1` as it was; a `DeleteNodeAtBeginning`
whose `realloc` succeeds returns true, makes the count `n - 1` and puts at every
position `i` below `n - 1` the payload reference that was at `i + 1`. -/
theorem payload_follows_deletion_at_ends (m : NodeManager) (n : Nat)
    (hN : m.NodeCount = n) (hlen : m.store.length = n) (h2 : 2 ≤ n) (t : Realloc) :
    (DeleteNodeAtEnd m (some t)).1 = true ∧
    (DeleteNodeAtEnd m (some t)).2.NodeCount = (n : Int) - 1 ∧
    (DeleteNodeAtEnd m (some t)).2.store.length = n - 1 ∧
    (∀ i, i < n - 1 → ((DeleteNodeAtEnd m (some t)).2.cell i).data = (m.cell i).data) ∧
    (DeleteNodeAtBeginning m (some t)).1 = true ∧
    (DeleteNodeAtBeginning m (some t)).2.NodeCount = (n : Int) - 1 ∧
    (DeleteNodeAtBeginning m (some t)).2.store.length = n - 1 ∧
    (∀ i, i < n - 1 →
      ((DeleteNodeAtBeginning m (some t)).2.cell i).data = (m.cell (i + 1)).data) := by
  have hc : (m.NodeCount - 1).toNat = n - 1 := by omega
  have hd : ∀ (c : Int) (b j : Nat) (x : Node),
      (relinkedAtPosition c b j x).data = x.data := by
    intro c b j x
    unfold relinkedAtPosition
    split_ifs <;> simp
  have hE := DeleteNodeAtEnd_core m t
  have hB := DeleteNodeAtBeginning_core m t
  simp only [NodeManager.core, Prod.mk.injEq] at hE hB
  refine ⟨rfl, ?_, ?_, ?_, rfl, ?_, ?_, ?_⟩
  · rw [hE.2.1, hN]
  · rw [hE.2.2.2, hc]
  · intro i hi
    rw [DeleteNodeAtEnd_cell m t i (by omega), hd, if_pos (by omega)]
  · rw [hB.2.1, hN]
  · rw [hB.2.2.2, hc]
  · intro i hi
    rw [DeleteNodeAtBeginning_cell m t i (by omega) (by omega), data_renumbered,
      forUp_shift_data _
        (fun i s => length_of_frame (DeleteNodeAtBeginning_shift_round_frame i s))
        DeleteNodeAtBeginning_shift_round_data]
    rw [if_pos ⟨by omega, by omega, by show i < m.store.length; omega⟩]
    rfl

theorem payload_follows_deletion_at_ends_witness :
    (DeleteNodeAtEnd threeNodes (some ⟨200, staleNode⟩)).1 = true ∧
    ((DeleteNodeAtEnd threeNodes (some ⟨200, staleNode⟩)).2.cell 1).data = some 11 ∧
    (DeleteNodeAtBeginning threeNodes (some ⟨200, staleNode⟩)).1 = true ∧
    ((DeleteNodeAtBeginning threeNodes (some ⟨200, staleNode⟩)).2.cell 1).data = some 12 :=
  have h := payload_follows_deletion_at_ends threeNodes 3 (by decide) (by decide) (by decide)
    ⟨200, staleNode⟩
  ⟨h.1, h.2.2.2.1 1 (by decide), h.2.2.2.2.1, h.2.2.2.2.2.2.2 1 (by decide)⟩

/-! ## DeleteNodeAtPosition, in closed form -/

theorem DeleteNodeAtPosition_inside (m : NodeManager) (position : Int) (t : Realloc)
    (r2 : Option Realloc) (h0 : 0 < position) (hc : position ≤ m.NodeCount - 1)
    (hne : position ≠ m.NodeCount - 1 - 1) :
    DeleteNodeAtPosition m position (some t) r2 = (true, deletedInside m position t) := by
  have hg : ¬ (position < 0 ∨ position > m.NodeCount - 1) := by omega
  have h2 : ¬ position = 0 := by omega
  simp only [DeleteNodeAtPosition, if_neg hg, if_neg hne, if_neg h2]
  rfl

theorem DeleteNodeAtPosition_shift_frame (m : NodeManager) (lo k : Nat) :
    (forUp DeleteNodeAtPosition.shift lo k m).frame = m.frame :=
  forUp_keeps _ (fun s => s.frame = m.frame)
    (fun i s h => (DeleteNodeAtPosition_shift_round_frame i s).trans h) lo k m rfl

theorem deletedInside_core (m : NodeManager) (position : Int) (t : Realloc) :
    (deletedInside m position t).core =
      (m.ListID, m.NodeCount - 1, t.addr, (m.NodeCount - 1).toNat) := by
  have hf := core_of_frame (DeleteNodeAtPosition_shift_frame (decremented m) position.toNat
    ((m.NodeCount - 1).toNat - position.toNat))
  refine forDown_keeps _
    (fun s => s.core = (m.ListID, m.NodeCount - 1, t.addr, (m.NodeCount - 1).toNat))
    (fun i s h => (DeleteNodeAtPosition_relink_round_core _ _ i s).trans h) 0 _ _ ?_
  show (shrunk _ _ _).core = _
  rw [core_shrunk, ListID_of_core hf, NodeCount_of_core hf]
  rfl

theorem DeleteNodeAtPosition_relink_round_head (c : Int) (b : Nat) (s : NodeManager) :
    (DeleteNodeAtPosition.relink c b 0 s).head = NodePtr.elem b 0 := by
  unfold DeleteNodeAtPosition.relink
  rw [if_pos rfl]
  rfl

theorem DeleteNodeAtPosition_relink_round_tail (c : Int) (b i : Nat) (s : NodeManager)
    (h : s.tail = NodePtr.elem b (c - 1)) :
    (DeleteNodeAtPosition.relink c b i s).tail = NodePtr.elem b (c - 1) := by
  unfold DeleteNodeAtPosition.relink
  split_ifs with h0 h1
  · exact h
  · show NodePtr.elem b (i : Int) = _
    rw [h1]
  · exact h

theorem DeleteNodeAtPosition_relink_round_last (c : Int) (b i : Nat) (s : NodeManager)
    (h0 : i ≠ 0) (h1 : (i : Int) = c - 1) :
    (DeleteNodeAtPosition.relink c b i s).tail = NodePtr.elem b (c - 1) := by
  unfold DeleteNodeAtPosition.relink
  rw [if_neg h0, if_pos h1]
  show NodePtr.elem b (i : Int) = _
  rw [h1]

theorem deletedInside_head (m : NodeManager) (position : Int) (t : Realloc)
    (h : 1 ≤ m.NodeCount - 1) :
    (deletedInside m position t).head = NodePtr.elem t.addr 0 := by
  obtain ⟨k, hk⟩ : ∃ k, (m.NodeCount - 1).toNat = k + 1 := ⟨(m.NodeCount - 1).toNat - 1, by omega⟩
  unfold deletedInside
  rw [hk, forDown_last, DeleteNodeAtPosition_relink_round_head]

theorem deletedInside_tail (m : NodeManager) (position : Int) (t : Realloc)
    (h : 2 ≤ m.NodeCount - 1) :
    (deletedInside m position t).tail = NodePtr.elem t.addr (m.NodeCount - 1 - 1) := by
  obtain ⟨k, hk⟩ : ∃ k, (m.NodeCount - 1).toNat = k + 1 := ⟨(m.NodeCount - 1).toNat - 1, by omega⟩
  have hk0 : 0 + k ≠ 0 := by omega
  have hk1 : ((0 + k : Nat) : Int) = m.NodeCount - 1 - 1 := by omega
  unfold deletedInside
  rw [hk, forDown]
  exact forDown_keeps _ (fun s => s.tail = NodePtr.elem t.addr (m.NodeCount - 1 - 1))
    (fun i s hs => DeleteNodeAtPosition_relink_round_tail _ _ i s hs) 0 k _
    (DeleteNodeAtPosition_relink_round_last (m.NodeCount - 1) t.addr (0 + k) _ hk0 hk1)

theorem deletedInside_cell (m : NodeManager) (position : Int) (t : Realloc) (j : Nat)
    (hj : j < (m.NodeCount - 1).toNat) (hl : j < m.store.length) :
    (deletedInside m position t).cell j =
      renumbered (m.NodeCount - 1) t.addr j
        ((forUp DeleteNodeAtPosition.shift position.toNat
          ((m.NodeCount - 1).toNat - position.toNat) (decremented m)).cell j) := by
  have hf := DeleteNodeAtPosition_shift_frame (decremented m) position.toNat
    ((m.NodeCount - 1).toNat - position.toNat)
  have hlen : (forUp DeleteNodeAtPosition.shift position.toNat
      ((m.NodeCount - 1).toNat - position.toNat) (decremented m)).store.length =
      m.store.length := (length_of_frame hf).trans rfl
  unfold deletedInside
  rw [forDown_cell_of_store _ _ (DeleteNodeAtPosition_relink_round_store _ _),
    length_shrunk, if_pos (by omega), cell_shrunk, if_pos hj, hlen, if_pos hl]

theorem deletedInside_data (m : NodeManager) (position : Int) (t : Realloc) (j : Nat)
    (hj : j < (m.NodeCount - 1).toNat) (hl : j < m.store.length) :
    ((deletedInside m position t).cell j).data =
      if position.toNat ≤ j then (m.cell (j + 1)).data else (m.cell j).data := by
  rw [deletedInside_cell m position t j hj hl, data_renumbered,
    forUp_shift_data _
      (fun i s => length_of_frame (DeleteNodeAtPosition_shift_round_frame i s))
      DeleteNodeAtPosition_shift_round_data]
  have hl2 : j < (decremented m).store.length := hl
  by_cases hp : position.toNat ≤ j
  · rw [if_pos ⟨hp, by omega, hl2⟩, if_pos hp]
    rfl
  · rw [if_neg (fun h => hp h.1), if_neg hp]
    rfl

/-! ## Appending and deleting again -/

theorem CreateList_created (NodeCount : Int) (ListID : List Char) (NodeArray : Nat)
    (h : 1 ≤ NodeCount) :
    CreateList NodeCount ListID true (some NodeArray) =
      some (created NodeCount ListID NodeArray) :=
  CreateList_eq NodeCount ListID NodeArray h

theorem frame_created (NodeCount : Int) (ListID : List Char) (NodeArray : Nat) :
    (created NodeCount ListID NodeArray).frame =
      (ListID.take 29, NodeCount, NodePtr.elem NodeArray 0,
        NodePtr.elem NodeArray (NodeCount - 1), NodeArray, NodeCount.toNat) := by
  unfold created
  rw [forUp_modify_frame]
  simp [NodeManager.frame, blank]

theorem cell_created (NodeCount : Int) (ListID : List Char) (NodeArray : Nat) (j : Nat)
    (hj : j < NodeCount.toNat) :
    (created NodeCount ListID NodeArray).cell j = renumbered NodeCount NodeArray j zeroNode := by
  have hl : (blank NodeCount ListID NodeArray).store.length = NodeCount.toNat := by
    simp [blank]
  have hz : (blank NodeCount ListID NodeArray).cell j = zeroNode := by
    simp only [NodeManager.cell, blank, List.getD_eq_getElem?_getD, List.getElem?_replicate]
    rw [if_pos hj]
    rfl
  unfold created
  rw [forUp_modify_cell, if_pos (by omega), hz]

/-- What a relinking round writes depends on the slot's payload alone. -/
theorem renumbered_of_data (c : Int) (b j : Nat) (x y : Node) (h : x.data = y.data) :
    renumbered c b j x = renumbered c b j y := by
  unfold renumbered relinked
  split_ifs <;> simp [h]

theorem frame_of_core {s s2 : NodeManager} (hc : s.core = s2.core) (hh : s.head = s2.head)
    (ht : s.tail = s2.tail) : s.frame = s2.frame := by
  simp only [NodeManager.core, Prod.mk.injEq] at hc
  simp only [NodeManager.frame, Prod.mk.injEq]
  exact ⟨hc.1, hc.2.1, hh, ht, hc.2.2.1, hc.2.2.2⟩

/-- Appending to a freshly created list of at least two nodes and deleting at
the position of the appended node gives the list that `CreateList` builds in
the block where the last `realloc` left the nodes. -/
theorem append_delete_created (n : Int) (h2 : 2 ≤ n) (ListID : List Char) (NodeArray : Nat)
    (t1 t2 : Realloc) (r2 : Option Realloc) :
    DeleteNodeAtPosition (InsertNodeAtEnd (created n ListID NodeArray) (some t1)).2 n
      (some t2) r2 = (true, created n ListID t2.addr) := by
  have hI := InsertNodeAtEnd_frame (created n ListID NodeArray) t1
  have h0 := frame_created n ListID NodeArray
  have hN0 : (created n ListID NodeArray).NodeCount = n := by
    simp only [NodeManager.frame, Prod.mk.injEq] at h0
    exact h0.2.1
  have hL0 : (created n ListID NodeArray).store.length = n.toNat := by
    simp only [NodeManager.frame, Prod.mk.injEq] at h0
    exact h0.2.2.2.2.2
  have hID0 : (created n ListID NodeArray).ListID = ListID.take 29 := by
    simp only [NodeManager.frame, Prod.mk.injEq] at h0
    exact h0.1
  have hNI : (InsertNodeAtEnd (created n ListID NodeArray) (some t1)).2.NodeCount = n + 1 := by
    rw [NodeCount_of_frame hI]
    show (created n ListID NodeArray).NodeCount + 1 = n + 1
    rw [hN0]
  have hLI : (InsertNodeAtEnd (created n ListID NodeArray) (some t1)).2.store.length =
      (n + 1).toNat := by
    rw [length_of_frame hI]
    simp only [grown, length_resize, hN0]
  have hIDI : (InsertNodeAtEnd (created n ListID NodeArray) (some t1)).2.ListID =
      ListID.take 29 := by
    rw [ListID_of_core (core_of_frame hI)]
    exact hID0
  have hc : (InsertNodeAtEnd (created n ListID NodeArray) (some t1)).2.NodeCount - 1 = n := by
    omega
  rw [DeleteNodeAtPosition_inside _ n t2 r2 (by omega) (by omega) (by omega)]
  congr 1
  have h1 := frame_created n ListID t2.addr
  apply NodeManager.ext_cells
  · rw [h1]
    have hcore := deletedInside_core (InsertNodeAtEnd (created n ListID NodeArray) (some t1)).2
      n t2
    have hhead := deletedInside_head (InsertNodeAtEnd (created n ListID NodeArray) (some t1)).2
      n t2 (by omega)
    have htail := deletedInside_tail (InsertNodeAtEnd (created n ListID NodeArray) (some t1)).2
      n t2 (by omega)
    rw [hc] at hcore htail
    rw [hIDI] at hcore
    simp only [NodeManager.core, Prod.mk.injEq] at hcore
    simp only [NodeManager.frame, Prod.mk.injEq]
    exact ⟨hcore.1, hcore.2.1, hhead, htail, hcore.2.2.1, hcore.2.2.2⟩
  · intro j hj
    have hjn : j < n.toNat := by
      have e : (deletedInside (InsertNodeAtEnd (created n ListID NodeArray) (some t1)).2 n
          t2).store.length = n.toNat := by
        have hcore := deletedInside_core
          (InsertNodeAtEnd (created n ListID NodeArray) (some t1)).2 n t2
        rw [hc] at hcore
        simp only [NodeManager.core, Prod.mk.injEq] at hcore
        exact hcore.2.2.2
      omega
    have hd := deletedInside_data (InsertNodeAtEnd (created n ListID NodeArray) (some t1)).2
      n t2 j (by omega) (by omega)
    rw [if_neg (by omega), InsertNodeAtEnd_cell, if_pos (by omega), data_renumbered,
      if_pos (by omega), cell_created n ListID NodeArray j hjn, data_renumbered] at hd
    rw [deletedInside_cell _ n t2 j (by omega) (by omega), data_renumbered, hc] at hd
    rw [deletedInside_cell _ n t2 j (by omega) (by omega), hc,
      cell_created n ListID t2.addr j hjn]
    exact renumbered_of_data n t2.addr j _ _ hd

/-- Claim C20.  For every `n ≥ 2`, on the list `m0` that `CreateList(n, label)`
builds, an `InsertNodeAtEnd` whose `realloc` succeeds followed by a
`DeleteNodeAtPosition` at position `n` whose `realloc` succeeds returns true
from the deletion and leaves exactly the list `m1` that `CreateList(n, label)`
builds in the block where the nodes now are: both satisfy the structural
invariants with count `n`, carry the same label, and have the same position and
the same payload reference at every index; when the block is back at its first
address the manager is the original one, field by field. -/
theorem append_then_delete_round_trip (n : Int) (h2 : 2 ≤ n) (ListID : List Char)
    (NodeArray : Nat) (t1 t2 : Realloc) (r2 : Option Realloc) :
    ∃ m0 m1, CreateList n ListID true (some NodeArray) = some m0 ∧
      CreateList n ListID true (some t2.addr) = some m1 ∧
      DeleteNodeAtPosition (InsertNodeAtEnd m0 (some t1)).2 n (some t2) r2 = (true, m1) ∧
      Invariants m0 ∧ Invariants m1 ∧
      m0.NodeCount = n ∧ m1.NodeCount = n ∧ m1.ListID = m0.ListID ∧
      (∀ i : Nat, (i : Int) < n →
        (m1.cell i).position = (m0.cell i).position ∧
        (m1.cell i).data = (m0.cell i).data) ∧
      (t2.addr = NodeArray → m1 = m0) := by
  have hinv : ∀ b, Invariants (created n ListID b) := by
    intro b
    obtain ⟨m, hm, hI⟩ := CreateList_invariants n ListID b h2
    rw [CreateList_created n ListID b (by omega)] at hm
    rw [Option.some.inj hm]
    exact hI
  have hf0 := frame_created n ListID NodeArray
  have hf1 := frame_created n ListID t2.addr
  simp only [NodeManager.frame, Prod.mk.injEq] at hf0 hf1
  refine ⟨created n ListID NodeArray, created n ListID t2.addr,
    CreateList_created n ListID NodeArray (by omega),
    CreateList_created n ListID t2.addr (by omega),
    append_delete_created n h2 ListID NodeArray t1 t2 r2,
    hinv NodeArray, hinv t2.addr, hf0.2.1, hf1.2.1, hf1.1.trans hf0.1.symm, ?_, ?_⟩
  · intro i hi
    rw [cell_created n ListID t2.addr i (by omega), cell_created n ListID NodeArray i (by omega)]
    exact ⟨rfl, by rw [data_renumbered, data_renumbered]⟩
  · intro e
    rw [e]

theorem append_then_delete_round_trip_witness :
    ∃ m0, CreateList 5 ['L'] true (some 100) = some m0 ∧
      DeleteNodeAtPosition (InsertNodeAtEnd m0 (some ⟨200, staleNode⟩)).2 5
        (some ⟨100, staleNode⟩) none = (true, m0) ∧
      Invariants m0 := by
  obtain ⟨m0, m1, h0, -, hd, hi, -, -, -, -, -, he⟩ :=
    append_then_delete_round_trip 5 (by decide) ['L'] 100 ⟨200, staleNode⟩ ⟨100, staleNode⟩
      none
  rw [he rfl] at hd
  exact ⟨m0, h0, hd, hi⟩

/-! ## Insertion at position `0` and at the count -/

theorem cell_counted (m : NodeManager) (t : Realloc) (j : Nat) :
    (counted m t).cell j =
      if j < (m.NodeCount + 1).toNat then (if j < m.store.length then m.cell j else t.fresh)
      else zeroNode := by
  simp only [NodeManager.cell, counted, getD_resize]

theorem length_counted (m : NodeManager) (t : Realloc) :
    (counted m t).store.length = (m.NodeCount + 1).toNat := by
  simp [counted]

/-- Claim C22.  On a manager with `n ≥ 1` nodes and with every `realloc`
succeeding, `InsertNodeAtPosition` at position `0` and at position `n` returns
a null pointer and leaves `n + 2` nodes; at position `0` the payload reference
that was at every `i < n` is at `i + 1`, at position `n` it is still at `i`. -/
theorem InsertNodeAtPosition_at_ends_grows_twice (m : NodeManager) (n : Nat)
    (hN : m.NodeCount = n) (hlen : m.store.length = n) (h1 : 1 ≤ n) (t t2 : Realloc) :
    (InsertNodeAtPosition m 0 (some t) (some t2)).1 = NodePtr.null ∧
    (InsertNodeAtPosition m 0 (some t) (some t2)).2.NodeCount = n + 2 ∧
    (InsertNodeAtPosition m 0 (some t) (some t2)).2.store.length = n + 2 ∧
    (∀ i, i < n →
      ((InsertNodeAtPosition m 0 (some t) (some t2)).2.cell (i + 1)).data = (m.cell i).data) ∧
    (InsertNodeAtPosition m n (some t) (some t2)).1 = NodePtr.null ∧
    (InsertNodeAtPosition m n (some t) (some t2)).2.NodeCount = n + 2 ∧
    (InsertNodeAtPosition m n (some t) (some t2)).2.store.length = n + 2 ∧
    (∀ i, i < n →
      ((InsertNodeAtPosition m n (some t) (some t2)).2.cell i).data = (m.cell i).data) := by
  have hc : (counted m t).NodeCount = n + 1 := by
    show m.NodeCount + 1 = n + 1
    omega
  have hcl := length_counted m t
  have hfB := InsertNodeAtBeginning_frame (counted m t) t2
  have hfE := InsertNodeAtEnd_frame (counted m t) t2
  have hgl : (grown (counted m t) t2).store.length = n + 2 := by
    simp only [grown, length_resize, hc]
    omega
  have hgc : (grown (counted m t) t2).NodeCount = n + 2 := by
    show (counted m t).NodeCount + 1 = n + 2
    omega
  have hlast : InsertNodeAtPosition m n (some t) (some t2) =
      (NodePtr.null, (InsertNodeAtEnd (counted m t) (some t2)).2) := by
    rw [← hN]
    exact InsertNodeAtPosition_last m t (some t2) (by omega)
  rw [InsertNodeAtPosition_first m t (some t2) (by omega), hlast]
  refine ⟨rfl, ?_, ?_, ?_, rfl, ?_, ?_, ?_⟩
  · exact (NodeCount_of_frame hfB).trans hgc
  · exact (length_of_frame hfB).trans hgl
  · intro i hi
    show ((InsertNodeAtBeginning (counted m t) (some t2)).2.cell (i + 1)).data = _
    rw [InsertNodeAtBeginning_data, if_pos ⟨by omega, by omega⟩, cell_grown,
      if_pos (by omega), if_pos (by omega)]
    show ((counted m t).cell i).data = _
    rw [cell_counted, if_pos (by omega), if_pos (by omega)]
  · exact (NodeCount_of_frame hfE).trans hgc
  · exact (length_of_frame hfE).trans hgl
  · intro i hi
    show ((InsertNodeAtEnd (counted m t) (some t2)).2.cell i).data = _
    rw [InsertNodeAtEnd_cell, if_pos (by omega), if_pos (by omega), data_renumbered,
      cell_counted, if_pos (by omega), if_pos (by omega)]

theorem InsertNodeAtPosition_at_ends_grows_twice_witness :
    (InsertNodeAtPosition threeNodes 0 (some ⟨200, staleNode⟩) (some ⟨300, staleNode⟩)).1 =
      NodePtr.null ∧
    (InsertNodeAtPosition threeNodes 0 (some ⟨200, staleNode⟩)
      (some ⟨300, staleNode⟩)).2.NodeCount = 5 ∧
    ((InsertNodeAtPosition threeNodes 0 (some ⟨200, staleNode⟩)
      (some ⟨300, staleNode⟩)).2.cell 3).data = some 12 ∧
    (InsertNodeAtPosition threeNodes 3 (some ⟨200, staleNode⟩) (some ⟨300, staleNode⟩)).1 =
      NodePtr.null ∧
    ((InsertNodeAtPosition threeNodes 3 (some ⟨200, staleNode⟩)
      (some ⟨300, staleNode⟩)).2.cell 2).data = some 12 :=
  have h := InsertNodeAtPosition_at_ends_grows_twice threeNodes 3 (by decide) (by decide)
    (by decide) ⟨200, staleNode⟩ ⟨300, staleNode⟩
  ⟨h.1, h.2.1, h.2.2.2.1 2 (by decide), h.2.2.2.2.1, h.2.2.2.2.2.2.2 2 (by decide)⟩

/-! ## Deletion at position `0` and next to the last position -/

theorem DeleteNodeAtPosition_first (m : NodeManager) (r r2 : Option Realloc)
    (h : 3 ≤ m.NodeCount) :
    DeleteNodeAtPosition m 0 r r2 = (false, (DeleteNodeAtBeginning (decremented m) r2).2) := by
  have hg : ¬ ((0 : Int) < 0 ∨ 0 > m.NodeCount - 1) := by omega
  have h1 : ¬ (0 : Int) = m.NodeCount - 1 - 1 := by omega
  simp only [DeleteNodeAtPosition, if_neg hg, if_neg h1]
  rfl

theorem DeleteNodeAtPosition_before_last (m : NodeManager) (r r2 : Option Realloc)
    (h : 2 ≤ m.NodeCount) :
    DeleteNodeAtPosition m (m.NodeCount - 1 - 1) r r2 =
      (false, (DeleteNodeAtEnd (decremented m) r2).2) := by
  have hg : ¬ (m.NodeCount - 1 - 1 < 0 ∨ m.NodeCount - 1 - 1 > m.NodeCount - 1) := by omega
  simp only [DeleteNodeAtPosition, if_neg hg]
  rfl

theorem DeleteNodeAtEnd_data (m : NodeManager) (t : Realloc) (j : Nat)
    (hj : j < (m.NodeCount - 1).toNat) (hl : j < m.store.length) :
    ((DeleteNodeAtEnd m (some t)).2.cell j).data = (m.cell j).data := by
  rw [DeleteNodeAtEnd_cell m t j hj, if_pos hl]
  unfold relinkedAtPosition
  split_ifs <;> simp

theorem DeleteNodeAtBeginning_data (m : NodeManager) (t : Realloc) (j : Nat)
    (hj : j < (m.NodeCount - 1).toNat) (hl : j < m.store.length) :
    ((DeleteNodeAtBeginning m (some t)).2.cell j).data = (m.cell (j + 1)).data := by
  rw [DeleteNodeAtBeginning_cell m t j hj hl, data_renumbered,
    forUp_shift_data _
      (fun i s => length_of_frame (DeleteNodeAtBeginning_shift_round_frame i s))
      DeleteNodeAtBeginning_shift_round_data]
  have hl2 : j < (decremented m).store.length := hl
  rw [if_pos ⟨by omega, by omega, hl2⟩]
  rfl

/-- Claim C23.  On a manager with `n ≥ 3` nodes and with every `realloc`
succeeding, `DeleteNodeAtPosition` at position `0` and at position `n - 2`
returns false and leaves `n - 2` nodes: at position `0` every position
`i < n - 2` holds the payload reference that was at `i + 1`, at position `n - 2`
it holds the one that was at `i`.  At position `n - 1` it returns true, whatever
a second `realloc` would do, leaves `n - 1` nodes, and every position
`i < n - 1` holds the payload reference that was at `i`. -/
theorem DeleteNodeAtPosition_at_ends_removes_two (m : NodeManager) (n : Nat)
    (hN : m.NodeCount = n) (hlen : m.store.length = n) (h3 : 3 ≤ n) (t t2 : Realloc)
    (r2 : Option Realloc) :
    (DeleteNodeAtPosition m 0 (some t) (some t2)).1 = false ∧
    (DeleteNodeAtPosition m 0 (some t) (some t2)).2.NodeCount = (n : Int) - 2 ∧
    (DeleteNodeAtPosition m 0 (some t) (some t2)).2.store.length = n - 2 ∧
    (∀ i, i < n - 2 →
      ((DeleteNodeAtPosition m 0 (some t) (some t2)).2.cell i).data =
        (m.cell (i + 1)).data) ∧
    (DeleteNodeAtPosition m ((n : Int) - 2) (some t) (some t2)).1 = false ∧
    (DeleteNodeAtPosition m ((n : Int) - 2) (some t) (some t2)).2.NodeCount = (n : Int) - 2 ∧
    (DeleteNodeAtPosition m ((n : Int) - 2) (some t) (some t2)).2.store.length = n - 2 ∧
    (∀ i, i < n - 2 →
      ((DeleteNodeAtPosition m ((n : Int) - 2) (some t) (some t2)).2.cell i).data =
        (m.cell i).data) ∧
    (DeleteNodeAtPosition m ((n : Int) - 1) (some t) r2).1 = true ∧
    (DeleteNodeAtPosition m ((n : Int) - 1) (some t) r2).2.NodeCount = (n : Int) - 1 ∧
    (DeleteNodeAtPosition m ((n : Int) - 1) (some t) r2).2.store.length = n - 1 ∧
    (∀ i, i < n - 1 →
      ((DeleteNodeAtPosition m ((n : Int) - 1) (some t) r2).2.cell i).data =
        (m.cell i).data) := by
  have hd : (decremented m).NodeCount = (n : Int) - 1 := by
    show m.NodeCount - 1 = (n : Int) - 1
    omega
  have hdl : (decremented m).store.length = n := hlen
  have hB := DeleteNodeAtBeginning_core (decremented m) t2
  have hE := DeleteNodeAtEnd_core (decremented m) t2
  have hI := deletedInside_core m ((n : Int) - 1) t
  simp only [NodeManager.core, Prod.mk.injEq] at hB hE hI
  have hbl : DeleteNodeAtPosition m ((n : Int) - 2) (some t) (some t2) =
      (false, (DeleteNodeAtEnd (decremented m) (some t2)).2) := by
    have e : (n : Int) - 2 = m.NodeCount - 1 - 1 := by omega
    rw [e]
    exact DeleteNodeAtPosition_before_last m (some t) (some t2) (by omega)
  rw [DeleteNodeAtPosition_first m (some t) (some t2) (by omega), hbl,
    DeleteNodeAtPosition_inside m ((n : Int) - 1) t r2 (by omega) (by omega) (by omega)]
  refine ⟨rfl, ?_, ?_, ?_, rfl, ?_, ?_, ?_, rfl, ?_, ?_, ?_⟩
  · show (DeleteNodeAtBeginning (decremented m) (some t2)).2.NodeCount = _
    rw [hB.2.1, hd]
    omega
  · show (DeleteNodeAtBeginning (decremented m) (some t2)).2.store.length = _
    rw [hB.2.2.2, hd]
    omega
  · intro i hi
    show ((DeleteNodeAtBeginning (decremented m) (some t2)).2.cell i).data = _
    rw [DeleteNodeAtBeginning_data (decremented m) t2 i (by omega) (by omega)]
    rfl
  · show (DeleteNodeAtEnd (decremented m) (some t2)).2.NodeCount = _
    rw [hE.2.1, hd]
    omega
  · show (DeleteNodeAtEnd (decremented m) (some t2)).2.store.length = _
    rw [hE.2.2.2, hd]
    omega
  · intro i hi
    show ((DeleteNodeAtEnd (decremented m) (some t2)).2.cell i).data = _
    rw [DeleteNodeAtEnd_data (decremented m) t2 i (by omega) (by omega)]
    rfl
  · show (deletedInside m ((n : Int) - 1) t).NodeCount = _
    rw [hI.2.1, hN]
  · show (deletedInside m ((n : Int) - 1) t).store.length = _
    rw [hI.2.2.2]
    omega
  · intro i hi
    show ((deletedInside m ((n : Int) - 1) t).cell i).data = _
    rw [deletedInside_data m _ t i (by omega) (by omega), if_neg (by omega)]

theorem DeleteNodeAtPosition_at_ends_removes_two_witness :
    (DeleteNodeAtPosition threeNodes 0 (some ⟨200, staleNode⟩) (some ⟨300, staleNode⟩)).1 =
      false ∧
    (DeleteNodeAtPosition threeNodes 0 (some ⟨200, staleNode⟩)
      (some ⟨300, staleNode⟩)).2.NodeCount = 1 ∧
    ((DeleteNodeAtPosition threeNodes 0 (some ⟨200, staleNode⟩)
      (some ⟨300, staleNode⟩)).2.cell 0).data = some 11 ∧
    ((DeleteNodeAtPosition threeNodes 1 (some ⟨200, staleNode⟩)
      (some ⟨300, staleNode⟩)).2.cell 0).data = some 10 ∧
    (DeleteNodeAtPosition threeNodes 2 (some ⟨200, staleNode⟩) none).1 = true ∧
    ((DeleteNodeAtPosition threeNodes 2 (some ⟨200, staleNode⟩) none).2.cell 1).data =
      some 11 :=
  have h := DeleteNodeAtPosition_at_ends_removes_two threeNodes 3 (by decide) (by decide)
    (by decide) ⟨200, staleNode⟩ ⟨300, staleNode⟩ none
  ⟨h.1, h.2.1, h.2.2.2.1 0 (by decide), h.2.2.2.2.2.2.2.1 0 (by decide),
    h.2.2.2.2.2.2.2.2.1, h.2.2.2.2.2.2.2.2.2.2.2 1 (by decide)⟩

/-! ## References after a resize -/

theorem DeleteNodeAtEnd_relink_round_head (c : Int) (b i : Nat) (s : NodeManager) :
    (DeleteNodeAtEnd.relink c b i s).head = s.head := by
  unfold DeleteNodeAtEnd.relink
  split_ifs <;> rfl

theorem DeleteNodeAtEnd_relink_round_tail (c : Int) (b i : Nat) (s : NodeManager)
    (h : s.tail = NodePtr.elem b (c - 1)) :
    (DeleteNodeAtEnd.relink c b i s).tail = NodePtr.elem b (c - 1) := by
  unfold DeleteNodeAtEnd.relink
  split_ifs with h0 h1
  · exact h
  · show NodePtr.elem b (i : Int) = _
    rw [h1]
  · exact h

theorem DeleteNodeAtEnd_relink_round_last (c : Int) (b i : Nat) (s : NodeManager)
    (h0 : i ≠ 0) (h1 : (i : Int) = c - 1) :
    (DeleteNodeAtEnd.relink c b i s).tail = NodePtr.elem b (c - 1) := by
  unfold DeleteNodeAtEnd.relink
  rw [if_neg h0, if_pos h1]
  show NodePtr.elem b (i : Int) = _
  rw [h1]

theorem DeleteNodeAtBeginning_relink_round_head (c : Int) (b : Nat) (s : NodeManager) :
    (DeleteNodeAtBeginning.relink c b 0 s).head = NodePtr.elem b 0 := by
  unfold DeleteNodeAtBeginning.relink
  rw [if_pos rfl]
  rfl

theorem DeleteNodeAtBeginning_relink_round_tail (c : Int) (b i : Nat) (s : NodeManager)
    (h : s.tail = NodePtr.elem b (c - 1)) :
    (DeleteNodeAtBeginning.relink c b i s).tail = NodePtr.elem b (c - 1) := by
  unfold DeleteNodeAtBeginning.relink
  split_ifs with h0 h1
  · exact h
  · show NodePtr.elem b (i : Int) = _
    rw [h1]
  · exact h

theorem DeleteNodeAtBeginning_relink_round_last (c : Int) (b i : Nat) (s : NodeManager)
    (h0 : i ≠ 0) (h1 : (i : Int) = c - 1) :
    (DeleteNodeAtBeginning.relink c b i s).tail = NodePtr.elem b (c - 1) := by
  unfold DeleteNodeAtBeginning.relink
  rw [if_neg h0, if_pos h1]
  show NodePtr.elem b (i : Int) = _
  rw [h1]

/-- The manager keeps the `head` it had through `DeleteNodeAtEnd`, whether
`realloc` succeeds or not. -/
theorem DeleteNodeAtEnd_head (m : NodeManager) (r : Option Realloc) :
    (DeleteNodeAtEnd m r).2.head = m.head := by
  cases r with
  | none => rfl
  | some t =>
    rw [DeleteNodeAtEnd_eq]
    exact forDown_keeps (DeleteNodeAtEnd.relink (m.NodeCount - 1) t.addr)
      (fun s => s.head = m.head)
      (fun i s h => (DeleteNodeAtEnd_relink_round_head _ _ i s).trans h) 0
      (m.NodeCount - 1).toNat (shrunk (decremented m) (m.NodeCount - 1) t) rfl

theorem DeleteNodeAtEnd_tail (m : NodeManager) (t : Realloc) (h : 2 ≤ m.NodeCount - 1) :
    (DeleteNodeAtEnd m (some t)).2.tail = NodePtr.elem t.addr (m.NodeCount - 1 - 1) := by
  obtain ⟨k, hk⟩ : ∃ k, (m.NodeCount - 1).toNat = k + 1 :=
    ⟨(m.NodeCount - 1).toNat - 1, by omega⟩
  have hk0 : 0 + k ≠ 0 := by omega
  have hk1 : ((0 + k : Nat) : Int) = m.NodeCount - 1 - 1 := by omega
  rw [DeleteNodeAtEnd_eq]
  show NodeManager.tail (forDown _ 0 _ _) = _
  rw [hk, forDown]
  exact forDown_keeps _ (fun s => s.tail = NodePtr.elem t.addr (m.NodeCount - 1 - 1))
    (fun i s hs => DeleteNodeAtEnd_relink_round_tail _ _ i s hs) 0 k _
    (DeleteNodeAtEnd_relink_round_last (m.NodeCount - 1) t.addr (0 + k) _ hk0 hk1)

theorem DeleteNodeAtBeginning_head (m : NodeManager) (t : Realloc) (h : 1 ≤ m.NodeCount - 1) :
    (DeleteNodeAtBeginning m (some t)).2.head = NodePtr.elem t.addr 0 := by
  obtain ⟨k, hk⟩ : ∃ k, (m.NodeCount - 1).toNat = k + 1 :=
    ⟨(m.NodeCount - 1).toNat - 1, by omega⟩
  rw [DeleteNodeAtBeginning_eq]
  show NodeManager.head (forDown _ 0 _ _) = _
  rw [hk, forDown_last, DeleteNodeAtBeginning_relink_round_head]

theorem DeleteNodeAtBeginning_tail (m : NodeManager) (t : Realloc)
    (h : 2 ≤ m.NodeCount - 1) :
    (DeleteNodeAtBeginning m (some t)).2.tail =
      NodePtr.elem t.addr (m.NodeCount - 1 - 1) := by
  obtain ⟨k, hk⟩ : ∃ k, (m.NodeCount - 1).toNat = k + 1 :=
    ⟨(m.NodeCount - 1).toNat - 1, by omega⟩
  have hk0 : 0 + k ≠ 0 := by omega
  have hk1 : ((0 + k : Nat) : Int) = m.NodeCount - 1 - 1 := by omega
  rw [DeleteNodeAtBeginning_eq]
  show NodeManager.tail (forDown _ 0 _ _) = _
  rw [hk, forDown]
  exact forDown_keeps _ (fun s => s.tail = NodePtr.elem t.addr (m.NodeCount - 1 - 1))
    (fun i s hs => DeleteNodeAtBeginning_relink_round_tail _ _ i s hs) 0 k _
    (DeleteNodeAtBeginning_relink_round_last (m.NodeCount - 1) t.addr (0 + k) _ hk0 hk1)

/-- After a `DeleteNodeAtBeginning` that leaves at least two nodes the
invariants hold: `head`, `tail` and every link are taken from the new block. -/
theorem Invariants_after_DeleteNodeAtBeginning (m : NodeManager) (n : Nat)
    (hN : m.NodeCount = n) (hlen : m.store.length = n) (h3 : 3 ≤ n) (t : Realloc) :
    Invariants (DeleteNodeAtBeginning m (some t)).2 := by
  have hc := DeleteNodeAtBeginning_core m t
  simp only [NodeManager.core, Prod.mk.injEq] at hc
  refine Invariants_of_relinked _ (m.NodeCount - 1) t.addr (by omega) hc.2.1 hc.2.2.1
    (DeleteNodeAtBeginning_head m t (by omega)) (DeleteNodeAtBeginning_tail m t (by omega))
    (by rw [hc.2.2.2]; omega) ?_
  intro j hj
  rw [hc.2.2.2] at hj
  rw [DeleteNodeAtBeginning_cell m t j hj (by omega)]
  exact ⟨rfl, _, rfl, rfl⟩

/-- After a deletion that `DeleteNodeAtPosition` does itself and that leaves at
least two nodes the invariants hold: `head`, `tail` and every link are taken
from the new block. -/
theorem Invariants_deletedInside (m : NodeManager) (n : Nat) (hN : m.NodeCount = n)
    (hlen : m.store.length = n) (h3 : 3 ≤ n) (position : Int) (t : Realloc) :
    Invariants (deletedInside m position t) := by
  have hc := deletedInside_core m position t
  simp only [NodeManager.core, Prod.mk.injEq] at hc
  refine Invariants_of_relinked _ (m.NodeCount - 1) t.addr (by omega) hc.2.1 hc.2.2.1
    (deletedInside_head m position t (by omega)) (deletedInside_tail m position t (by omega))
    (by rw [hc.2.2.2]; omega) ?_
  intro j hj
  rw [hc.2.2.2] at hj
  rw [deletedInside_cell m position t j hj (by omega)]
  exact ⟨rfl, _, rfl, rfl⟩

/-- After a `DeleteNodeAtEnd` that leaves at least two nodes, `tail` and every
link are taken from the new block. -/
theorem DeleteNodeAtEnd_relinks (m : NodeManager) (n : Nat) (hN : m.NodeCount = n)
    (hlen : m.store.length = n) (h3 : 3 ≤ n) (t : Realloc) :
    (DeleteNodeAtEnd m (some t)).2.NodeArray = t.addr ∧
    (DeleteNodeAtEnd m (some t)).2.tail = NodePtr.elem t.addr ((n : Int) - 2) ∧
    ∀ j, j < n - 1 →
      ((DeleteNodeAtEnd m (some t)).2.cell j).next =
        NodePtr.elem t.addr (((j : Int) + 1) % ((n : Int) - 1)) ∧
      ((DeleteNodeAtEnd m (some t)).2.cell j).prev =
        NodePtr.elem t.addr (((j : Int) - 1) % ((n : Int) - 1)) := by
  have hc := DeleteNodeAtEnd_core m t
  simp only [NodeManager.core, Prod.mk.injEq] at hc
  have e : m.NodeCount - 1 = (n : Int) - 1 := by omega
  refine ⟨hc.2.2.1, ?_, ?_⟩
  · rw [DeleteNodeAtEnd_tail m t (by omega)]
    congr 1
    omega
  · intro j hj
    rw [DeleteNodeAtEnd_cell m t j (by omega), e]
    have hx : ∀ x, (relinkedAtPosition ((n : Int) - 1) t.addr j x).next =
          (relinked ((n : Int) - 1) t.addr j x).next ∧
        (relinkedAtPosition ((n : Int) - 1) t.addr j x).prev =
          (relinked ((n : Int) - 1) t.addr j x).prev := by
      intro x
      unfold relinkedAtPosition
      split_ifs <;> exact ⟨rfl, rfl⟩
    rw [(hx _).1, (hx _).2, next_relinked _ _ _ _ (by omega) (by omega),
      prev_relinked _ _ _ _ (by omega) (by omega)]
    exact ⟨rfl, rfl⟩

/-- Claim C21, on an input where the code departs from it.  `DeleteNodeAtEnd`
never assigns `head`: the manager has afterwards the `head` it had before,
whatever `realloc` did.  On the three-node sample, with `realloc` succeeding
and moving the block from address `100` to `200`, the call returns true and
leaves two nodes whose `tail` is in the new block while `head` is still the
address of slot `0` of the old block. -/
theorem DeleteNodeAtEnd_head_not_reassigned :
    (∀ (m : NodeManager) (r : Option Realloc), (DeleteNodeAtEnd m r).2.head = m.head) ∧
    (DeleteNodeAtEnd threeNodes (some ⟨200, zeroNode⟩)).1 = true ∧
    (DeleteNodeAtEnd threeNodes (some ⟨200, zeroNode⟩)).2.NodeCount = 2 ∧
    (DeleteNodeAtEnd threeNodes (some ⟨200, zeroNode⟩)).2.NodeArray = 200 ∧
    (DeleteNodeAtEnd threeNodes (some ⟨200, zeroNode⟩)).2.tail = NodePtr.elem 200 1 ∧
    (DeleteNodeAtEnd threeNodes (some ⟨200, zeroNode⟩)).2.head = NodePtr.elem 100 0 ∧
    (DeleteNodeAtEnd threeNodes (some ⟨200, zeroNode⟩)).2.head ≠ NodePtr.elem 200 0 :=
  ⟨DeleteNodeAtEnd_head, by decide⟩

set_option maxRecDepth 100000 in
/-- The calls of the test in `main` (lines 671-696), every `realloc` succeeding
in place: from ten nodes the list ends with eleven, so that `NodeArray[10]`,
which the test reads, is a slot of the block. -/
theorem main_sequence_leaves_eleven_nodes :
    (CreateList 10 ['L', 'i', 's', 't', '1'] true (some 100)).map
      (fun m =>
        let m := (SetNodeData m 2 (some 323)).2
        let m := (InsertNodeAtEnd m (some ⟨100, zeroNode⟩)).2
        let m := (InsertNodeAtBeginning m (some ⟨100, zeroNode⟩)).2
        let m := (InsertNodeAtPosition m 4 (some ⟨100, zeroNode⟩) (some ⟨100, zeroNode⟩)).2
        let m := (DeleteNodeAtEnd m (some ⟨100, zeroNode⟩)).2
        let m := (DeleteNodeAtBeginning m (some ⟨100, zeroNode⟩)).2
        let m := (DeleteNodeAtPosition m 1 (some ⟨100, zeroNode⟩) (some ⟨100, zeroNode⟩)).2
        let m := (DeleteNodeAtPosition m 2 (some ⟨100, zeroNode⟩) (some ⟨100, zeroNode⟩)).2
        let m := (InsertNodeAtPosition m 0 (some ⟨100, zeroNode⟩) (some ⟨100, zeroNode⟩)).2
        (m.NodeCount, m.store.length)) = some (11, 11) := by
  decide

end MDCL
